import Mathlib

/-!
# gsignal: a slot-signal container

A shallow embedding of `event.go` and `oneshot.go`.

* A Go slice is a header (backing array, length, capacity); backing arrays live
  in a heap so that the `range` loop of `Emit`, which evaluates `e.handlers`
  once, and the statements `e.handlers[length] = h` and
  `e.handlers = e.handlers[:length]`, which read `e.handlers` again, may
  disagree when a callback changes the Event.
* A callback (`func(arg T)`) is a term of `Slot`: the operations a Go closure
  can perform on the Events and on the connection objects, plus `call id`, the
  opaque user function number `id`, whose invocation is recorded in a log.
* Callbacks may call `Emit` again, so running one takes a bound on the call
  depth (`fuel`).
-/

namespace gsignal

/-- A value of the interface `connection`: nil, the package-level
`theRemovedConnection`, a pointer to a user object with a `disposed` flag (as
`*listener` of the example test), or a pointer to a `oneshotConnector`, given
by its address and carrying the object's `conn` field, which is never
reassigned. -/
inductive connection where
  | nil
  | removed
  | user (p : Nat)
  | oneshot (p : Nat) (conn : connection)
  deriving DecidableEq, Repr

/-- The body of a callback `func(arg T)`. -/
inductive Slot where
  /-- the nil func value: calling it is a run-time error -/
  | nil
  | skip
  | seq (a b : Slot)
  /-- the opaque user function `id`, applied to the argument -/
  | call (id : Nat)
  /-- `l.disposed = b` on the user object at address `p` -/
  | setDisposed (p : Nat) (b : Bool)
  /-- `oneshot.fired = true` on the oneshotConnector at address `p` -/
  | setFired (p : Nat)
  /-- `e.Emit(arg)` with the argument the callback received -/
  | emit (e : Nat)
  | reset (e : Nat)
  | flush (e : Nat)
  | disconnect (e : Nat) (c : connection)
  | connect (e : Nat) (c : connection) (slot : Slot)
  deriving DecidableEq, Repr

/-- The struct `eventHandler`. -/
structure eventHandler where
  c : connection
  f : Slot
  deriving DecidableEq, Repr

/-- A slice header `[]eventHandler`: backing array (an index in the heap of
arrays), length and capacity. All slices of the package start at the first
element of their array. -/
structure Slice where
  arr : Nat
  len : Nat
  cap : Nat
  deriving DecidableEq, Repr

/-- The struct `Event`. Its zero value holds the nil slice. -/
structure Event where
  handlers : Slice
  deriving DecidableEq, Repr

/-- The state outside the Events: the `disposed` flags of the user objects
(the addresses whose flag is true), the `fired` flags of the oneshotConnector
objects, the next free oneshotConnector address, and the log of the calls of
user functions, each with the argument it received. -/
structure Env (T : Type) where
  disposed : List Nat
  fired : List Nat
  nextOneshot : Nat
  log : List (Nat × T)
  deriving DecidableEq, Repr

/-- The whole state: the heap of backing arrays, the Event objects by
address, and the rest. -/
structure World (T : Type) where
  arrays : List (List eventHandler)
  events : Nat → Event
  env : Env T

/-- Run-time errors, and the exhaustion of the call-depth bound. -/
inductive Fault where
  | indexOutOfRange
  | sliceBounds
  | nilFunc
  | outOfFuel
  deriving DecidableEq, Repr

/-- The zero value of `eventHandler`. -/
def eventHandler.zero : eventHandler := ⟨connection.nil, Slot.nil⟩

/-- A state with no array allocated, every Event at its zero value, no flag
set and an empty log. -/
def World.init (T : Type) : World T :=
  { arrays := [], events := fun _ => ⟨⟨0, 0, 0⟩⟩, env := ⟨[], [], 0, []⟩ }

/-- The assignment `e.handlers = s`. -/
def World.setHandlers {T : Type} (w : World T) (e : Nat) (s : Slice) : World T :=
  { w with events := fun x => if x = e then ⟨s⟩ else w.events x }

/-- The contents of backing array `a`. -/
def World.array {T : Type} (w : World T) (a : Nat) : List eventHandler :=
  w.arrays.getD a []

/-- The store `a[i] = h` into backing array `a`. -/
def World.store {T : Type} (w : World T) (a i : Nat) (h : eventHandler) : World T :=
  { w with arrays := w.arrays.set a ((w.array a).set i h) }

/-- The elements of the slice `e.handlers`, first to last. -/
def handlers {T : Type} (w : World T) (e : Nat) : List eventHandler :=
  (w.array (w.events e).handlers.arr).take (w.events e).handlers.len

/-- The methods `IsDisposed`: of `removedConnection` (always true), of a user
object (its flag) and of `oneshotConnector`
(`fired || (conn != nil && conn.IsDisposed())`). The package never calls it on
nil. -/
def connection.IsDisposed {T : Type} (v : Env T) : connection → Bool
  | connection.nil => false
  | connection.removed => true
  | connection.user p => decide (p ∈ v.disposed)
  | connection.oneshot p conn =>
    decide (p ∈ v.fired) || (conn != connection.nil && conn.IsDisposed v)

/-- The test `h.c != nil && h.c.IsDisposed()` of `Flush` and `Emit`. -/
def dead {T : Type} (v : Env T) (c : connection) : Bool :=
  c != connection.nil && c.IsDisposed v

/-- The method `Reset`: `e.handlers = e.handlers[:0]`. -/
def Reset {T : Type} (e : Nat) (w : World T) : World T :=
  w.setHandlers e { (w.events e).handlers with len := 0 }

/-- The method `Connect`: `e.handlers = append(e.handlers, eventHandler{c: conn, f: slot})`.
When the capacity is exhausted `append` allocates a new array; its capacity is
chosen by the Go runtime, here `grow` of the old capacity, and at least the
new length. -/
def Connect {T : Type} (grow : Nat → Nat) (e : Nat) (conn : connection) (slot : Slot)
    (w : World T) : World T :=
  let s := (w.events e).handlers
  if s.len < s.cap then
    (w.store s.arr s.len ⟨conn, slot⟩).setHandlers e { s with len := s.len + 1 }
  else
    let newcap := max (grow s.cap) (s.len + 1)
    let fresh := (w.array s.arr).take s.len ++ [⟨conn, slot⟩]
      ++ List.replicate (newcap - (s.len + 1)) eventHandler.zero
    { w with arrays := w.arrays ++ [fresh] }.setHandlers e ⟨w.arrays.length, s.len + 1, newcap⟩

/-- The loop of `Disconnect` over the elements of `e.handlers`: the first
element whose connection equals `conn` gets `theRemovedConnection`, and the
loop breaks. -/
def disconnectLoop (conn : connection) : List eventHandler → List eventHandler
  | [] => []
  | h :: hs =>
    if h.c = conn then { h with c := connection.removed } :: hs
    else h :: disconnectLoop conn hs

/-- The method `Disconnect`. -/
def Disconnect {T : Type} (e : Nat) (conn : connection) (w : World T) : World T :=
  let s := (w.events e).handlers
  let a := w.array s.arr
  { w with arrays := w.arrays.set s.arr (disconnectLoop conn (a.take s.len) ++ a.drop s.len) }

/-- The loop of `Flush`: `a` is the array of the slice the `range` clause
evaluated, `k` the number of iterations left, `i` the index read and `length`
the index written. -/
def flushLoop {T : Type} (e a : Nat) : Nat → Nat → Nat → World T → Except Fault (Nat × World T)
  | 0, _, length, w => Except.ok (length, w)
  | k + 1, i, length, w =>
    match (w.array a)[i]? with
    | none => Except.error Fault.indexOutOfRange
    | some h =>
      if dead w.env h.c then flushLoop e a k (i + 1) length w
      else
        let s := (w.events e).handlers
        if length < s.len then flushLoop e a k (i + 1) (length + 1) (w.store s.arr length h)
        else Except.error Fault.indexOutOfRange

/-- The method `Flush`. -/
def Flush {T : Type} (e : Nat) (w : World T) : Except Fault (World T) :=
  let s0 := (w.events e).handlers
  match flushLoop e s0.arr s0.len 0 0 w with
  | Except.error x => Except.error x
  | Except.ok (length, w1) =>
    let s := (w1.events e).handlers
    if length ≤ s.cap then Except.ok (w1.setHandlers e { s with len := length })
    else Except.error Fault.sliceBounds

/-- The loop of `Emit`, with `run` executing `h.f(arg)`: `a` is the array of
the slice the `range` clause evaluated, `k` the number of iterations left, `i`
the index read and `length` the index written. The store
`e.handlers[length] = h` goes through the slice the Event holds after the
callback has returned. -/
def emitLoop {T : Type} (run : Slot → World T → Except Fault (World T)) (e a : Nat) :
    Nat → Nat → Nat → World T → Except Fault (Nat × World T)
  | 0, _, length, w => Except.ok (length, w)
  | k + 1, i, length, w =>
    match (w.array a)[i]? with
    | none => Except.error Fault.indexOutOfRange
    | some h =>
      if dead w.env h.c then emitLoop run e a k (i + 1) length w
      else
        match run h.f w with
        | Except.error x => Except.error x
        | Except.ok w1 =>
          let s := (w1.events e).handlers
          if length < s.len then
            emitLoop run e a k (i + 1) (length + 1) (w1.store s.arr length h)
          else Except.error Fault.indexOutOfRange

/-- The body of `Emit`, with `run` executing a callback. -/
def emitWith {T : Type} (run : Slot → World T → Except Fault (World T)) (e : Nat)
    (w : World T) : Except Fault (World T) :=
  let s0 := (w.events e).handlers
  match emitLoop run e s0.arr s0.len 0 0 w with
  | Except.error x => Except.error x
  | Except.ok (length, w1) =>
    let s := (w1.events e).handlers
    if length ≤ s.cap then Except.ok (w1.setHandlers e { s with len := length })
    else Except.error Fault.sliceBounds

/-- Running the callback `s` on the argument `arg`, with at most `fuel` nested
calls. -/
def exec {T : Type} (grow : Nat → Nat) (arg : T) : Nat → Slot → World T → Except Fault (World T)
  | 0, _, _ => Except.error Fault.outOfFuel
  | fuel + 1, s, w =>
    match s with
    | Slot.nil => Except.error Fault.nilFunc
    | Slot.skip => Except.ok w
    | Slot.seq a b =>
      match exec grow arg fuel a w with
      | Except.error x => Except.error x
      | Except.ok w1 => exec grow arg fuel b w1
    | Slot.call id => Except.ok { w with env := { w.env with log := w.env.log ++ [(id, arg)] } }
    | Slot.setDisposed p b =>
      Except.ok { w with env := { w.env with
        disposed := if b then p :: w.env.disposed else w.env.disposed.filter (fun q => q != p) } }
    | Slot.setFired p => Except.ok { w with env := { w.env with fired := p :: w.env.fired } }
    | Slot.emit e => emitWith (exec grow arg fuel) e w
    | Slot.reset e => Except.ok (Reset e w)
    | Slot.flush e => Flush e w
    | Slot.disconnect e c => Except.ok (Disconnect e c w)
    | Slot.connect e c slot => Except.ok (Connect grow e c slot w)

/-- The method `Emit`: callbacks run with call depth at most `fuel`. -/
def Emit {T : Type} (grow : Nat → Nat) (fuel : Nat) (e : Nat) (arg : T) (w : World T) :
    Except Fault (World T) :=
  emitWith (exec grow arg fuel) e w

/-- The method `IsEmpty`. -/
def IsEmpty {T : Type} (e : Nat) (w : World T) : Bool :=
  (w.events e).handlers.len == 0

/-- The method `NumConnections`. -/
def NumConnections {T : Type} (e : Nat) (w : World T) : Nat :=
  (w.events e).handlers.len

/-- The method `Forward`. -/
def Forward {T : Type} (grow : Nat → Nat) (e : Nat) (conn : connection) (e2 : Nat)
    (w : World T) : World T :=
  Connect grow e conn (Slot.emit e2) w

/-- The function `ConnectOneShot`: a oneshotConnector with `fired` false is
allocated at the next free address `p`, and connected with the callback
`oneshot.fired = true; slot(arg)`. -/
def ConnectOneShot {T : Type} (grow : Nat → Nat) (e : Nat) (conn : connection) (slot : Slot)
    (w : World T) : World T :=
  let p := w.env.nextOneshot
  let w1 : World T := { w with env := { w.env with
    nextOneshot := p + 1, fired := w.env.fired.filter (fun q => q != p) } }
  Connect grow e (connection.oneshot p conn) (Slot.seq (Slot.setFired p) slot) w1

/-! ## Vocabulary of the statements -/

/-- The Event `e` holds a proper slice: its length is at most its capacity,
and its capacity at most the size of its backing array. -/
def WF {T : Type} (w : World T) (e : Nat) : Prop :=
  (w.events e).handlers.len ≤ (w.events e).handlers.cap ∧
    (w.events e).handlers.cap ≤ (w.array (w.events e).handlers.arr).length

instance {T : Type} (w : World T) (e : Nat) : Decidable (WF w e) := by
  unfold WF; infer_instance

/-- Callbacks that perform no operation on an Event: they call user
functions and assign flags of connection objects. -/
def Slot.simple : Slot → Bool
  | Slot.skip => true
  | Slot.seq a b => a.simple && b.simple
  | Slot.call _ => true
  | Slot.setDisposed _ _ => true
  | Slot.setFired _ => true
  | _ => false

/-- Callbacks that touch neither an Event nor a connection object: they only
call user functions. -/
def Slot.inert : Slot → Bool
  | Slot.skip => true
  | Slot.seq a b => a.inert && b.inert
  | Slot.call _ => true
  | _ => false

/-- The nesting depth of a callback that calls no `Emit`; one more is the
call depth that running it takes. -/
def Slot.depth : Slot → Nat
  | Slot.seq a b => max a.depth b.depth + 1
  | _ => 0

/-- The calls of user functions that one invocation of a callback without
Event operations makes, in order. -/
def Slot.calls {T : Type} (arg : T) : Slot → List (Nat × T)
  | Slot.seq a b => a.calls arg ++ b.calls arg
  | Slot.call id => [(id, arg)]
  | _ => []

/-- What one invocation of a callback without Event operations does to the
state outside the Events. -/
def Slot.effect {T : Type} (arg : T) : Slot → Env T → Env T
  | Slot.seq a b, v => b.effect arg (a.effect arg v)
  | Slot.call id, v => { v with log := v.log ++ [(id, arg)] }
  | Slot.setDisposed p b, v =>
    { v with disposed := if b then p :: v.disposed else v.disposed.filter (fun q => q != p) }
  | Slot.setFired p, v => { v with fired := p :: v.fired }
  | _, v => v

/-- One pass over a list of records in which a record is dropped when its
connection is non-nil and reports disposed at the moment the pass reaches it,
and is otherwise kept after `eff` of its callback has been applied. -/
def sweep {T : Type} (eff : Slot → Env T → Env T) :
    List eventHandler → Env T → List eventHandler × Env T
  | [], v => ([], v)
  | h :: hs, v =>
    if dead v h.c then sweep eff hs v
    else ((h :: (sweep eff hs (eff h.f v)).1), (sweep eff hs (eff h.f v)).2)

/-- A record whose connection is nil or reports not disposed. -/
def live {T : Type} (v : Env T) (h : eventHandler) : Bool :=
  !dead v h.c

/-- The calls of user functions made when each live record of `hs` is
invoked once with `arg`, first to last. -/
def invoked {T : Type} (arg : T) (v : Env T) (hs : List eventHandler) : List (Nat × T) :=
  (hs.filter (live v)).flatMap (fun h => h.f.calls arg)

/-- Every oneshotConnector that the connection refers to has been
allocated. -/
def connection.allocated {T : Type} (v : Env T) : connection → Bool
  | connection.oneshot p conn => decide (p < v.nextOneshot) && conn.allocated v
  | _ => true

/-- What the statements observe of a state: the records of Event `e`, what
`NumConnections` returns, and the state outside the Events. -/
def view {T : Type} (e : Nat) (w : World T) : List eventHandler × Nat × Env T :=
  (handlers w e, NumConnections e w, w.env)

/-- One `Emit` on Event `e` for each argument of the list, in order. -/
def emits {T : Type} (grow : Nat → Nat) (fuel : Nat) (e : Nat) :
    List T → World T → Except Fault (World T)
  | [], w => Except.ok w
  | a :: as, w =>
    match Emit grow fuel e a w with
    | Except.error x => Except.error x
    | Except.ok w1 => emits grow fuel e as w1

/-- One `Connect` on Event `e` for each pair of the list, in order. -/
def connectAll {T : Type} (grow : Nat → Nat) (e : Nat) :
    List (connection × Slot) → World T → World T
  | [], w => w
  | c :: cs, w => connectAll grow e cs (Connect grow e c.1 c.2 w)

/-- A growth policy for concrete states: the capacity doubles. -/
def doubling (c : Nat) : Nat := 2 * c

/-- A concrete state: Event 0 holds a listener connected with nil and a
listener connected with the user object 0, whose `disposed` flag is set. -/
def stateDisposed : World Nat :=
  { connectAll doubling 0 [(connection.nil, Slot.call 1), (connection.user 0, Slot.call 2)]
      (World.init Nat) with env := ⟨[0], [], 0, []⟩ }

/-- A concrete state: Event 0 holds three listeners; the second and the third
were connected with the same user object 2. -/
def stateShared : World Nat :=
  connectAll doubling 0 [(connection.user 1, Slot.call 1), (connection.user 2, Slot.call 2),
    (connection.user 2, Slot.call 3)] (World.init Nat)

/-- A concrete state: Event 0 holds one listener, connected with nil. -/
def statePersistent : World Nat :=
  Connect doubling 0 connection.nil (Slot.call 1) (World.init Nat)

/-- A concrete state: Event 0 holds, in this order, a listener whose
connection, the user object 0, has been passed to Disconnect, a listener with
user function 1, a one-shot listener whose callback calls Emit on Event 0, and
listeners with user functions 3 and 4. -/
def stateReentrant : World Nat :=
  Disconnect 0 (connection.user 0)
    (connectAll doubling 0 [(connection.nil, Slot.call 3), (connection.nil, Slot.call 4)]
      (ConnectOneShot doubling 0 connection.nil (Slot.emit 0)
        (connectAll doubling 0 [(connection.user 0, Slot.call 0), (connection.nil, Slot.call 1)]
          (World.init Nat))))

/-- A concrete state: Event 0 holds one listener, connected with the user
object 1 and then disconnected with it; no Emit or Flush has run since. -/
def stateDisconnected : World Nat :=
  Disconnect 0 (connection.user 1)
    (Connect doubling 0 (connection.user 1) (Slot.call 1) (World.init Nat))

/-- The stores `e.handlers[length] = h` that the loop of `Flush` performs, in
order, each as the pair of the index `i` it is reading and the index `length`
it writes. The arguments are those of `flushLoop`, and so is the course. -/
def flushWrites {T : Type} (e a : Nat) : Nat → Nat → Nat → World T → List (Nat × Nat)
  | 0, _, _, _ => []
  | k + 1, i, length, w =>
    match (w.array a)[i]? with
    | none => []
    | some h =>
      if dead w.env h.c then flushWrites e a k (i + 1) length w
      else
        let s := (w.events e).handlers
        if length < s.len then
          (i, length) :: flushWrites e a k (i + 1) (length + 1) (w.store s.arr length h)
        else []

/-- Callbacks whose only operation on an Event is `Connect` on Event `e`:
besides that they call user functions. The callback handed to `Connect` is
not restricted. -/
def Slot.appends (e : Nat) : Slot → Bool
  | Slot.skip => true
  | Slot.seq a b => a.appends e && b.appends e
  | Slot.call _ => true
  | Slot.connect e1 _ _ => e1 == e
  | _ => false

/-- What a callback that only appends to `e.handlers` does to the heap, seen
from a loop of `Emit` that reads the array `a0`: the Event still holds a
proper slice, at least as long as before; no array has been freed; and
neither the elements the slice had nor those of `a0` below that length have
changed. -/
def Grows {T : Type} (e a0 : Nat) (w1 w2 : World T) : Prop :=
  WF w2 e ∧ (w1.events e).handlers.len ≤ (w2.events e).handlers.len ∧
    w1.arrays.length ≤ w2.arrays.length ∧
    (w2.array (w2.events e).handlers.arr).take (w1.events e).handlers.len
      = (w1.array (w1.events e).handlers.arr).take (w1.events e).handlers.len ∧
    (w2.array a0).take (w1.events e).handlers.len
      = (w1.array a0).take (w1.events e).handlers.len

/-- A concrete state: Event 0 holds a listener whose callback calls user
function 1 and then connects a listener with user function 9 to Event 0, and
a listener with user function 2. -/
def stateConnecting : World Nat :=
  connectAll doubling 0
    [(connection.nil, Slot.seq (Slot.call 1) (Slot.connect 0 connection.nil (Slot.call 9))),
      (connection.nil, Slot.call 2)] (World.init Nat)

/-- A concrete state: Event 0 holds a listener with user function 1, and
Event 1 holds listeners with user functions 2 and 3. -/
def stateTwoEvents : World Nat :=
  connectAll doubling 1 [(connection.nil, Slot.call 2), (connection.nil, Slot.call 3)]
    (connectAll doubling 0 [(connection.nil, Slot.call 1)] (World.init Nat))

/-- Callbacks whose only operation on an Event is `Reset` on Event `e`:
besides that they call user functions. -/
def Slot.resets (e : Nat) : Slot → Bool
  | Slot.skip => true
  | Slot.seq a b => a.resets e && b.resets e
  | Slot.call _ => true
  | Slot.reset e1 => e1 == e
  | _ => false

/-- The callback calls `Reset` at least once (not counting a callback it
hands to `Connect`). -/
def Slot.hasReset : Slot → Bool
  | Slot.seq a b => a.hasReset || b.hasReset
  | Slot.reset _ => true
  | _ => false

/-- Callbacks whose only operation on an Event is `Emit` on Event `e`:
besides that they call user functions. -/
def Slot.reemits (e : Nat) : Slot → Bool
  | Slot.skip => true
  | Slot.seq a b => a.reemits e && b.reemits e
  | Slot.call _ => true
  | Slot.emit e1 => e1 == e
  | _ => false

/-- The callback calls `Emit` at least once (not counting a callback it
hands to `Connect`). -/
def Slot.hasEmit : Slot → Bool
  | Slot.seq a b => a.hasEmit || b.hasEmit
  | Slot.emit _ => true
  | _ => false

/-! ## Callbacks without Event operations -/

theorem Slot.simple_of_inert (s : Slot) (h : s.inert = true) : s.simple = true := by
  induction s <;> simp_all [Slot.inert, Slot.simple]

theorem exec_simple {T : Type} (grow : Nat → Nat) (arg : T) :
    ∀ (fuel : Nat) (s : Slot) (w : World T), s.simple = true → s.depth < fuel →
      exec grow arg fuel s w = Except.ok { w with env := s.effect arg w.env } := by
  intro fuel
  induction fuel with
  | zero => intro s w _ hd; omega
  | succ n ih =>
    intro s w hs hd
    cases s with
    | seq a b =>
      simp only [Slot.simple, Bool.and_eq_true] at hs
      simp only [Slot.depth] at hd
      have ha := ih a w hs.1 (by omega)
      have hb := ih b { w with env := a.effect arg w.env } hs.2 (by omega)
      simp only [exec, ha, hb, Slot.effect]
    | skip => simp [exec, Slot.effect]
    | call id => simp [exec, Slot.effect]
    | setDisposed p b => simp [exec, Slot.effect]
    | setFired p => simp [exec, Slot.effect]
    | nil => simp [Slot.simple] at hs
    | emit e => simp [Slot.simple] at hs
    | reset e => simp [Slot.simple] at hs
    | flush e => simp [Slot.simple] at hs
    | disconnect e c => simp [Slot.simple] at hs
    | connect e c slot => simp [Slot.simple] at hs

theorem IsDisposed_congr {T : Type} (v v1 : Env T) (hd : v1.disposed = v.disposed)
    (hf : v1.fired = v.fired) (c : connection) : c.IsDisposed v1 = c.IsDisposed v := by
  induction c with
  | nil => rfl
  | removed => rfl
  | user p => simp [connection.IsDisposed, hd]
  | oneshot p conn ih => simp [connection.IsDisposed, hf, ih]

theorem dead_congr {T : Type} (v v1 : Env T) (hd : v1.disposed = v.disposed)
    (hf : v1.fired = v.fired) (c : connection) : dead v1 c = dead v c := by
  simp [dead, IsDisposed_congr v v1 hd hf c]

theorem effect_inert {T : Type} (arg : T) (s : Slot) (hs : s.inert = true) (v : Env T) :
    s.effect arg v = { v with log := v.log ++ s.calls arg } := by
  induction s generalizing v with
  | seq a b iha ihb =>
    simp only [Slot.inert, Bool.and_eq_true] at hs
    simp [Slot.effect, Slot.calls, iha hs.1, ihb hs.2]
  | skip => simp [Slot.effect, Slot.calls]
  | call id => simp [Slot.effect, Slot.calls]
  | nil => simp [Slot.inert] at hs
  | setDisposed p b => simp [Slot.inert] at hs
  | setFired p => simp [Slot.inert] at hs
  | emit e => simp [Slot.inert] at hs
  | reset e => simp [Slot.inert] at hs
  | flush e => simp [Slot.inert] at hs
  | disconnect e c => simp [Slot.inert] at hs
  | connect e c slot => simp [Slot.inert] at hs

/-! ## The compaction loop -/

theorem array_lt_of_ne_nil {T : Type} (w : World T) (a : Nat) (h : w.array a ≠ []) :
    a < w.arrays.length := by
  by_contra hlt
  apply h
  simp only [World.array, List.getD_eq_getElem?_getD]
  rw [List.getElem?_eq_none (by omega)]
  rfl

theorem array_store_same {T : Type} (w : World T) (a i : Nat) (h : eventHandler)
    (ha : a < w.arrays.length) : (w.store a i h).array a = (w.array a).set i h := by
  simp [World.store, World.array, ha]

theorem array_store_other {T : Type} (w : World T) (a b i : Nat) (h : eventHandler)
    (hb : b ≠ a) : (w.store a i h).array b = w.array b := by
  simp only [World.store, World.array, List.getD_eq_getElem?_getD]
  rw [List.getElem?_set_ne (Ne.symm hb)]

theorem sweep_cons_dead {T : Type} (eff : Slot → Env T → Env T) (h : eventHandler)
    (hs : List eventHandler) (v : Env T) (hd : dead v h.c = true) :
    sweep eff (h :: hs) v = sweep eff hs v := by
  simp [sweep, hd]

theorem sweep_cons_live {T : Type} (eff : Slot → Env T → Env T) (h : eventHandler)
    (hs : List eventHandler) (v : Env T) (hd : dead v h.c = false) :
    sweep eff (h :: hs) v
      = (h :: (sweep eff hs (eff h.f v)).1, (sweep eff hs (eff h.f v)).2) := by
  simp [sweep, hd]

theorem emitLoop_sweep {T : Type} (run : Slot → World T → Except Fault (World T))
    (eff : Slot → Env T → Env T) (e a : Nat) (O : List eventHandler) :
    ∀ (k i length : Nat) (w : World T) (pre : List eventHandler),
      (w.events e).handlers.arr = a →
      w.array a = pre ++ O.drop length → pre.length = length → length ≤ i →
      i + k ≤ (w.events e).handlers.len → (w.events e).handlers.len ≤ O.length →
      (∀ h ∈ (O.drop i).take k, ∀ w1 : World T,
        run h.f w1 = Except.ok { w1 with env := eff h.f w1.env }) →
      ∃ w1, emitLoop run e a k i length w
            = Except.ok (length + (sweep eff ((O.drop i).take k) w.env).1.length, w1) ∧
        w1.events = w.events ∧ w1.env = (sweep eff ((O.drop i).take k) w.env).2 ∧
        w1.array a = pre ++ (sweep eff ((O.drop i).take k) w.env).1
          ++ O.drop (length + (sweep eff ((O.drop i).take k) w.env).1.length) ∧
        w1.arrays.length = w.arrays.length ∧ ∀ b, b ≠ a → w1.array b = w.array b := by
  intro k
  induction k with
  | zero =>
    intro i length w pre _ harr _ _ _ _ _
    exact ⟨w, by simp [emitLoop, sweep], rfl, by simp [sweep], by simp [sweep, harr], rfl,
      fun _ _ => rfl⟩
  | succ k ih =>
    intro i length w pre hea harr hpre hle hik hlen hrun
    have hi : i < O.length := by omega
    have hdrop : (O.drop i).take (k + 1) = O[i] :: (O.drop (i + 1)).take k := by
      rw [List.drop_eq_getElem_cons hi, List.take_succ_cons]
    have hread : (w.array a)[i]? = some O[i] := by
      rw [harr, List.getElem?_append_right (by omega), List.getElem?_drop]
      rw [show length + (i - pre.length) = i by omega]
      exact List.getElem?_eq_getElem hi
    have hrun' : ∀ h ∈ (O.drop (i + 1)).take k, ∀ w1 : World T,
        run h.f w1 = Except.ok { w1 with env := eff h.f w1.env } := by
      intro h hh
      exact hrun h (by rw [hdrop]; exact List.mem_cons_of_mem _ hh)
    rw [hdrop]
    by_cases hd : dead w.env O[i].c = true
    · obtain ⟨w1, h1, h2, h3, h4, h5, h6⟩ :=
        ih (i + 1) length w pre hea harr hpre (by omega) (by omega) hlen hrun'
      rw [sweep_cons_dead eff _ _ _ hd]
      refine ⟨w1, ?_, h2, h3, h4, h5, h6⟩
      simp only [emitLoop, hread, hd, if_true]
      exact h1
    · have hd : dead w.env O[i].c = false := by simpa using hd
      have hr := hrun O[i] (by rw [hdrop]; exact List.mem_cons_self _ _) w
      have hane : w.array a ≠ [] := by
        intro h0
        have := congrArg List.length h0
        rw [harr] at this
        simp at this
        omega
      have halt := array_lt_of_ne_nil w a hane
      let w2 : World T := { w with env := eff O[i].f w.env }
      have hst : (w2.store a length O[i]).array a
          = (pre ++ [O[i]]) ++ O.drop (length + 1) := by
        rw [array_store_same w2 a length O[i] halt]
        show (w.array a).set length O[i] = _
        rw [harr, List.set_append_right _ _ (by omega)]
        rw [show length - pre.length = 0 by omega]
        rw [List.drop_eq_getElem_cons (show length < O.length by omega), List.set_cons_zero,
          List.append_assoc]
        rfl
      obtain ⟨w1, h1, h2, h3, h4, h5, h6⟩ :=
        ih (i + 1) (length + 1) (w2.store a length O[i]) (pre ++ [O[i]]) hea hst
          (by simp [hpre]) (by omega)
          (by show i + 1 + k ≤ (w.events e).handlers.len; omega) hlen hrun'
      have hlen2 : (w2.store a length O[i]).arrays.length = w.arrays.length := by
        simp [w2, World.store]
      have henv2 : (w2.store a length O[i]).env = eff O[i].f w.env := rfl
      rw [henv2] at h1 h3 h4
      rw [sweep_cons_live eff _ _ _ hd]
      refine ⟨w1, ?_, h2, h3, ?_, h5.trans hlen2, ?_⟩
      · simp only [emitLoop, hread, hd, hr]
        have hlt : length < (w.events e).handlers.len := by omega
        simp only [Bool.false_eq_true, if_false, hlt, if_true, hea]
        show emitLoop run e a k (i + 1) (length + 1) (w2.store a length O[i]) = _
        rw [h1, List.length_cons]
        congr 2
        omega
      · rw [h4, List.length_cons]
        simp only [List.append_assoc, List.singleton_append]
        congr 3
        omega
      · intro b hb
        rw [h6 b hb, array_store_other _ _ _ _ _ hb]
        rfl

theorem sweep_length_le {T : Type} (eff : Slot → Env T → Env T) (hs : List eventHandler) :
    ∀ v : Env T, (sweep eff hs v).1.length ≤ hs.length := by
  induction hs with
  | nil => intro v; simp [sweep]
  | cons h hs ih =>
    intro v
    by_cases hd : dead v h.c = true
    · rw [sweep_cons_dead eff _ _ _ hd]
      exact Nat.le_succ_of_le (ih v)
    · rw [sweep_cons_live eff _ _ _ (by simpa using hd)]
      simpa using ih (eff h.f v)

theorem sweep_sublist {T : Type} (eff : Slot → Env T → Env T) (hs : List eventHandler) :
    ∀ v : Env T, List.Sublist (sweep eff hs v).1 hs := by
  induction hs with
  | nil => intro v; simp [sweep]
  | cons h hs ih =>
    intro v
    by_cases hd : dead v h.c = true
    · rw [sweep_cons_dead eff _ _ _ hd]
      exact List.Sublist.cons _ (ih v)
    · rw [sweep_cons_live eff _ _ _ (by simpa using hd)]
      exact List.Sublist.cons₂ _ (ih (eff h.f v))

theorem flushLoop_eq_emitLoop {T : Type} (e a : Nat) :
    ∀ (k i length : Nat) (w : World T),
      flushLoop e a k i length w = emitLoop (fun _ w1 => Except.ok w1) e a k i length w := by
  intro k
  induction k with
  | zero => intro i length w; rfl
  | succ k ih =>
    intro i length w
    simp only [flushLoop, emitLoop]
    cases (w.array a)[i]? with
    | none => rfl
    | some h =>
      simp only
      split
      · exact ih _ _ _
      · split
        · exact ih _ _ _
        · rfl

theorem emitLoop_add {T : Type} (run : Slot → World T → Except Fault (World T)) (e a : Nat)
    (k2 : Nat) : ∀ (k1 i length : Nat) (w : World T),
      emitLoop run e a (k1 + k2) i length w =
        match emitLoop run e a k1 i length w with
        | Except.error x => Except.error x
        | Except.ok r => emitLoop run e a k2 (i + k1) r.1 r.2 := by
  intro k1
  induction k1 with
  | zero => intro i length w; simp [emitLoop]
  | succ k1 ih =>
    intro i length w
    rw [show k1 + 1 + k2 = (k1 + k2) + 1 by omega]
    simp only [emitLoop]
    cases (w.array a)[i]? with
    | none => rfl
    | some h =>
      simp only
      split
      · rw [ih, show i + 1 + k1 = i + (k1 + 1) by omega]
      · cases run h.f w with
        | error x => rfl
        | ok w1 =>
          simp only
          split
          · rw [ih, show i + 1 + k1 = i + (k1 + 1) by omega]
          · rfl

/-! ## Emit and Flush with callbacks that leave the Events alone -/

theorem emitWith_sweep {T : Type} (run : Slot → World T → Except Fault (World T))
    (eff : Slot → Env T → Env T) (e : Nat) (w : World T) (hwf : WF w e)
    (hrun : ∀ h ∈ handlers w e, ∀ w1 : World T,
      run h.f w1 = Except.ok { w1 with env := eff h.f w1.env }) :
    ∃ w1, emitWith run e w = Except.ok w1 ∧
      handlers w1 e = (sweep eff (handlers w e) w.env).1 ∧
      w1.env = (sweep eff (handlers w e) w.env).2 ∧ WF w1 e ∧
      NumConnections e w1 = (sweep eff (handlers w e) w.env).1.length ∧
      (∀ x, x ≠ e → w1.events x = w.events x) ∧
      (∀ b, b ≠ (w.events e).handlers.arr → w1.array b = w.array b) := by
  obtain ⟨h1, h2⟩ := hwf
  have hO : (List.drop 0 (w.array (w.events e).handlers.arr)).take (w.events e).handlers.len
      = handlers w e := rfl
  obtain ⟨w1, g1, g2, g3, g4, g5, g6⟩ :=
    emitLoop_sweep run eff e (w.events e).handlers.arr (w.array (w.events e).handlers.arr)
      (w.events e).handlers.len 0 0 w [] rfl (by simp) rfl (Nat.le_refl 0) (by omega)
      (by omega) (by rw [hO]; exact hrun)
  rw [hO] at g1 g3 g4
  have hk : (sweep eff (handlers w e) w.env).1.length ≤ (w.events e).handlers.len := by
    refine Nat.le_trans (sweep_length_le eff _ _) ?_
    simp [handlers]
  simp only [Nat.zero_add, List.nil_append] at g1 g4
  refine ⟨w1.setHandlers e { (w1.events e).handlers with
    len := (sweep eff (handlers w e) w.env).1.length }, ?_, ?_, g3, ?_, ?_, ?_, ?_⟩
  · simp only [emitWith, g1, g2]
    rw [if_pos (by omega)]
  · simp only [handlers, World.setHandlers, World.array, if_true, g2]
    have := g4
    simp only [World.array] at this
    rw [this]
    exact List.take_left _ _
  · constructor
    · simp only [World.setHandlers, if_true, g2]
      omega
    · simp only [World.setHandlers, World.array, if_true, g2]
      have := g4
      simp only [World.array] at this
      rw [this]
      simp only [World.array] at h2
      simp only [List.length_append, List.length_drop]
      omega
  · simp [NumConnections, World.setHandlers]
  · intro x hx
    simp [World.setHandlers, hx, g2]
  · intro b hb
    exact g6 b hb

theorem sweep_id {T : Type} (hs : List eventHandler) (v : Env T) :
    sweep (fun _ u => u) hs v = (hs.filter (live v), v) := by
  induction hs with
  | nil => simp [sweep]
  | cons h hs ih =>
    by_cases hd : dead v h.c = true
    · rw [sweep_cons_dead _ _ _ _ hd, ih]
      simp [live, hd]
    · have hd : dead v h.c = false := by simpa using hd
      rw [sweep_cons_live _ _ _ _ hd, ih]
      simp [live, hd]

theorem live_congr {T : Type} (v v1 : Env T) (hd : v1.disposed = v.disposed)
    (hf : v1.fired = v.fired) : live v1 = live v := by
  funext h
  simp [live, dead_congr v v1 hd hf]

theorem sweep_inert {T : Type} (arg : T) (hs : List eventHandler) :
    ∀ v : Env T, (∀ h ∈ hs, h.f.inert = true) →
      sweep (Slot.effect arg) hs v
        = (hs.filter (live v), { v with log := v.log ++ invoked arg v hs }) := by
  induction hs with
  | nil => intro v _; simp [sweep, invoked]
  | cons h hs ih =>
    intro v hin
    have hin' : ∀ x ∈ hs, x.f.inert = true := fun x hx => hin x (List.mem_cons_of_mem _ hx)
    by_cases hd : dead v h.c = true
    · rw [sweep_cons_dead _ _ _ _ hd, ih v hin']
      simp [live, hd, invoked]
    · have hd : dead v h.c = false := by simpa using hd
      rw [sweep_cons_live _ _ _ _ hd, ih _ hin', effect_inert arg h.f (hin h (List.mem_cons_self _ _))]
      have hl : live { v with log := v.log ++ h.f.calls arg } = live v :=
        live_congr _ _ rfl rfl
      simp [invoked, hl, live, hd]

theorem Flush_sweep {T : Type} (e : Nat) (w : World T) (hwf : WF w e) :
    ∃ w1, Flush e w = Except.ok w1 ∧ handlers w1 e = (handlers w e).filter (live w.env) ∧
      w1.env = w.env ∧ WF w1 e ∧
      NumConnections e w1 = ((handlers w e).filter (live w.env)).length := by
  obtain ⟨w1, h1, h2, h3, h4, h5, _⟩ :=
    emitWith_sweep (fun _ w1 => Except.ok w1) (fun _ u => u) e w hwf (fun _ _ _ => rfl)
  rw [sweep_id] at h2 h3 h5
  refine ⟨w1, ?_, h2, h3, h4, h5⟩
  rw [← h1]
  simp only [Flush, emitWith, flushLoop_eq_emitLoop]

theorem Emit_simple {T : Type} (grow : Nat → Nat) (fuel e : Nat) (arg : T) (w : World T)
    (hwf : WF w e) (hs : ∀ h ∈ handlers w e, h.f.simple = true ∧ h.f.depth < fuel) :
    ∃ w1, Emit grow fuel e arg w = Except.ok w1 ∧
      handlers w1 e = (sweep (Slot.effect arg) (handlers w e) w.env).1 ∧
      w1.env = (sweep (Slot.effect arg) (handlers w e) w.env).2 ∧ WF w1 e ∧
      NumConnections e w1 = (sweep (Slot.effect arg) (handlers w e) w.env).1.length := by
  obtain ⟨w1, h1, h2, h3, h4, h5, _⟩ :=
    emitWith_sweep (exec grow arg fuel) (Slot.effect arg) e w hwf
      (fun h hh w1 => exec_simple grow arg fuel h.f w1 (hs h hh).1 (hs h hh).2)
  exact ⟨w1, h1, h2, h3, h4, h5⟩

theorem Emit_inert {T : Type} (grow : Nat → Nat) (fuel e : Nat) (arg : T) (w : World T)
    (hwf : WF w e) (hs : ∀ h ∈ handlers w e, h.f.inert = true ∧ h.f.depth < fuel) :
    ∃ w1, Emit grow fuel e arg w = Except.ok w1 ∧
      handlers w1 e = (handlers w e).filter (live w.env) ∧
      w1.env = { w.env with log := w.env.log ++ invoked arg w.env (handlers w e) } ∧ WF w1 e ∧
      NumConnections e w1 = ((handlers w e).filter (live w.env)).length := by
  obtain ⟨w1, h1, h2, h3, h4, h5⟩ := Emit_simple grow fuel e arg w hwf
    (fun h hh => ⟨Slot.simple_of_inert _ (hs h hh).1, (hs h hh).2⟩)
  rw [sweep_inert arg _ _ (fun h hh => (hs h hh).1)] at h2 h3 h5
  exact ⟨w1, h1, h2, h3, h4, h5⟩

/-! ## Connect, ConnectOneShot and Disconnect -/

theorem take_succ_set {α : Type} (x : α) : ∀ (l : List α) (n : Nat), n < l.length →
    (l.set n x).take (n + 1) = l.take n ++ [x] := by
  intro l
  induction l with
  | nil => intro n h; simp at h
  | cons a l ih =>
    intro n h
    cases n with
    | zero => simp
    | succ n =>
      simp only [List.set_cons_succ, List.take_succ_cons, List.cons_append]
      rw [ih n (by simpa using h)]

theorem Connect_env {T : Type} (grow : Nat → Nat) (e : Nat) (c : connection) (s : Slot)
    (w : World T) : (Connect grow e c s w).env = w.env := by
  unfold Connect
  simp only
  split <;> rfl

theorem Connect_handlers {T : Type} (grow : Nat → Nat) (e : Nat) (c : connection) (s : Slot)
    (w : World T) (hwf : WF w e) :
    handlers (Connect grow e c s w) e = handlers w e ++ [⟨c, s⟩] ∧
      WF (Connect grow e c s w) e := by
  obtain ⟨h1, h2⟩ := hwf
  unfold Connect
  simp only
  split
  · rename_i hlt
    have hne : w.array (w.events e).handlers.arr ≠ [] := by
      intro h0
      rw [h0] at h2
      simp at h2
      omega
    have halt := array_lt_of_ne_nil w _ hne
    have hst := array_store_same w (w.events e).handlers.arr (w.events e).handlers.len ⟨c, s⟩ halt
    constructor
    · simp only [handlers, World.setHandlers, if_true]
      show List.take _ ((w.store _ _ _).array _) = _
      rw [hst, take_succ_set _ _ _ (by omega)]
    · constructor
      · simp only [World.setHandlers, if_true]
        omega
      · simp only [World.setHandlers, if_true]
        show _ ≤ ((w.store _ _ _).array _).length
        rw [hst, List.length_set]
        exact h2
  · rename_i hlt
    have harr : ∀ fresh : List eventHandler,
        ({ w with arrays := w.arrays ++ [fresh] } : World T).array w.arrays.length = fresh := by
      intro fresh
      simp [World.array]
    constructor
    · simp only [handlers, World.setHandlers, if_true]
      show List.take _ (({ w with arrays := _ } : World T).array w.arrays.length) = _
      rw [harr, List.append_assoc]
      have hl : (List.take (w.events e).handlers.len (w.array (w.events e).handlers.arr)).length
          = (w.events e).handlers.len := by
        rw [List.length_take]
        omega
      rw [List.take_append_eq_append_take, hl, List.take_of_length_le (by omega)]
      simp
    · constructor
      · simp only [World.setHandlers, if_true]
        omega
      · simp only [World.setHandlers, if_true]
        show _ ≤ (({ w with arrays := _ } : World T).array w.arrays.length).length
        rw [harr]
        simp only [List.length_append, List.length_take, List.length_replicate,
          List.length_cons, List.length_nil]
        omega

theorem ConnectOneShot_handlers {T : Type} (grow : Nat → Nat) (e : Nat) (c : connection)
    (s : Slot) (w : World T) (hwf : WF w e) :
    handlers (ConnectOneShot grow e c s w) e = handlers w e ++
        [⟨connection.oneshot w.env.nextOneshot c, Slot.seq (Slot.setFired w.env.nextOneshot) s⟩] ∧
      WF (ConnectOneShot grow e c s w) e ∧
      (ConnectOneShot grow e c s w).env = { w.env with
        nextOneshot := w.env.nextOneshot + 1,
        fired := w.env.fired.filter (fun q => q != w.env.nextOneshot) } := by
  have hwf1 : WF ({ w with env := { w.env with
      nextOneshot := w.env.nextOneshot + 1,
      fired := w.env.fired.filter (fun q => q != w.env.nextOneshot) } } : World T) e := hwf
  unfold ConnectOneShot
  simp only
  refine ⟨(Connect_handlers grow e _ _ _ hwf1).1, (Connect_handlers grow e _ _ _ hwf1).2, ?_⟩
  rw [Connect_env]

theorem disconnectLoop_length (conn : connection) (hs : List eventHandler) :
    (disconnectLoop conn hs).length = hs.length := by
  induction hs with
  | nil => rfl
  | cons h hs ih =>
    simp only [disconnectLoop]
    split <;> simp [ih]

theorem disconnectLoop_first (conn : connection) (r : eventHandler) (post : List eventHandler)
    (hr : r.c = conn) : ∀ front : List eventHandler, (∀ x ∈ front, x.c ≠ conn) →
      disconnectLoop conn (front ++ r :: post)
        = front ++ { r with c := connection.removed } :: post := by
  intro front
  induction front with
  | nil => intro _; simp [disconnectLoop, hr]
  | cons x xs ih =>
    intro h
    have hx : x.c ≠ conn := h x (List.mem_cons_self _ _)
    have := ih (fun y hy => h y (List.mem_cons_of_mem _ hy))
    simp only [List.cons_append, disconnectLoop, hx, if_false]
    exact congrArg _ this

theorem disconnectLoop_none (conn : connection) : ∀ hs : List eventHandler,
    (∀ x ∈ hs, x.c ≠ conn) → disconnectLoop conn hs = hs := by
  intro hs
  induction hs with
  | nil => intro _; rfl
  | cons x xs ih =>
    intro h
    have hx : x.c ≠ conn := h x (List.mem_cons_self _ _)
    simp only [disconnectLoop, hx, if_false]
    rw [ih (fun y hy => h y (List.mem_cons_of_mem _ hy))]

theorem Disconnect_handlers {T : Type} (e : Nat) (conn : connection) (w : World T)
    (hwf : WF w e) :
    handlers (Disconnect e conn w) e = disconnectLoop conn (handlers w e) ∧
      WF (Disconnect e conn w) e ∧ (Disconnect e conn w).env = w.env ∧
      NumConnections e (Disconnect e conn w) = NumConnections e w := by
  obtain ⟨h1, h2⟩ := hwf
  have hlen : (List.take (w.events e).handlers.len (w.array (w.events e).handlers.arr)).length
      = (w.events e).handlers.len := by
    rw [List.length_take]
    omega
  by_cases halt : (w.events e).handlers.arr < w.arrays.length
  · have harr : (Disconnect e conn w).array (w.events e).handlers.arr
        = disconnectLoop conn (handlers w e)
          ++ (w.array (w.events e).handlers.arr).drop (w.events e).handlers.len := by
      simp [Disconnect, World.array, handlers, halt]
    refine ⟨?_, ⟨h1, ?_⟩, rfl, rfl⟩
    · show List.take (w.events e).handlers.len
        ((Disconnect e conn w).array (w.events e).handlers.arr) = _
      rw [harr]
      exact List.take_left' (by rw [disconnectLoop_length]; exact hlen)
    · show (w.events e).handlers.cap
        ≤ ((Disconnect e conn w).array (w.events e).handlers.arr).length
      rw [harr, List.length_append, disconnectLoop_length, List.length_drop]
      simp only [handlers, hlen]
      omega
  · have hnil : w.array (w.events e).handlers.arr = [] := by
      by_contra hne
      exact halt (array_lt_of_ne_nil w _ hne)
    have hsame : (Disconnect e conn w).arrays = w.arrays := by
      simp only [Disconnect]
      exact List.set_eq_of_length_le (by omega)
    have harr : (Disconnect e conn w).array (w.events e).handlers.arr = [] := by
      simp only [World.array, hsame]
      exact hnil
    refine ⟨?_, ⟨h1, ?_⟩, rfl, rfl⟩
    · show List.take (w.events e).handlers.len
        ((Disconnect e conn w).array (w.events e).handlers.arr) = _
      rw [harr]
      simp [handlers, hnil, disconnectLoop]
    · show (w.events e).handlers.cap
        ≤ ((Disconnect e conn w).array (w.events e).handlers.arr).length
      rw [harr]
      rw [hnil] at h2
      exact h2

/-! ## Sequences of calls -/

theorem connectAll_handlers {T : Type} (grow : Nat → Nat) (e : Nat) :
    ∀ (cs : List (connection × Slot)) (w : World T), WF w e →
      handlers (connectAll grow e cs w) e
          = handlers w e ++ cs.map (fun c => (⟨c.1, c.2⟩ : eventHandler)) ∧
        WF (connectAll grow e cs w) e ∧ (connectAll grow e cs w).env = w.env := by
  intro cs
  induction cs with
  | nil => intro w hwf; simp [connectAll, hwf]
  | cons c cs ih =>
    intro w hwf
    obtain ⟨h1, h2⟩ := Connect_handlers grow e c.1 c.2 w hwf
    obtain ⟨g1, g2, g3⟩ := ih (Connect grow e c.1 c.2 w) h2
    simp only [connectAll]
    refine ⟨?_, g2, ?_⟩
    · rw [g1, h1]; simp
    · rw [g3, Connect_env]

theorem handlers_length {T : Type} (w : World T) (e : Nat) (hwf : WF w e) :
    (handlers w e).length = NumConnections e w := by
  obtain ⟨h1, h2⟩ := hwf
  simp only [handlers, NumConnections, List.length_take]
  omega

theorem invoked_congr {T : Type} (arg : T) (v v1 : Env T) (hd : v1.disposed = v.disposed)
    (hf : v1.fired = v.fired) (hs : List eventHandler) : invoked arg v1 hs = invoked arg v hs := by
  simp [invoked, live_congr v v1 hd hf]

theorem invoked_filter_live {T : Type} (arg : T) (v : Env T) (hs : List eventHandler) :
    invoked arg v (hs.filter (live v)) = invoked arg v hs := by
  simp [invoked, List.filter_filter]

theorem length_filter_live {T : Type} (v : Env T) (hs : List eventHandler) :
    (hs.filter (live v)).length = hs.length - hs.countP (fun h => dead v h.c) := by
  induction hs with
  | nil => rfl
  | cons h hs ih =>
    have := List.countP_le_length (fun h => dead v h.c) (l := hs)
    by_cases hd : dead v h.c = true
    · simp [live, hd, List.countP_cons_of_pos] at ih ⊢
      omega
    · simp [live, hd] at ih ⊢
      omega

theorem emits_inert {T : Type} (grow : Nat → Nat) (fuel e : Nat) :
    ∀ (as : List T) (a : T) (w : World T), WF w e →
      (∀ h ∈ handlers w e, h.f.inert = true ∧ h.f.depth < fuel) →
      ∃ w1, emits grow fuel e (a :: as) w = Except.ok w1 ∧
        handlers w1 e = (handlers w e).filter (live w.env) ∧
        w1.env = { w.env with log := w.env.log
          ++ (a :: as).flatMap (fun x => invoked x w.env (handlers w e)) } ∧
        WF w1 e := by
  intro as
  induction as with
  | nil =>
    intro a w hwf hin
    obtain ⟨w1, h1, h2, h3, h4, _⟩ := Emit_inert grow fuel e a w hwf hin
    exact ⟨w1, by simp [emits, h1], h2, by simp [h3], h4⟩
  | cons b bs ih =>
    intro a w hwf hin
    obtain ⟨w1, h1, h2, h3, h4, _⟩ := Emit_inert grow fuel e a w hwf hin
    have hin1 : ∀ h ∈ handlers w1 e, h.f.inert = true ∧ h.f.depth < fuel := by
      intro h hh
      rw [h2] at hh
      exact hin h (List.mem_filter.1 hh).1
    obtain ⟨w2, g1, g2, g3, g4⟩ := ih b w1 h4 hin1
    have hl : live w1.env = live w.env := live_congr _ _ (by rw [h3]) (by rw [h3])
    refine ⟨w2, ?_, ?_, ?_, g4⟩
    · rw [emits, h1]; exact g1
    · rw [g2, h2, hl, List.filter_filter]; simp
    · rw [g3, h2, h3]
      have : ∀ x : T, invoked x { w.env with log := w.env.log ++ invoked a w.env (handlers w e) }
          (List.filter (live w.env) (handlers w e)) = invoked x w.env (handlers w e) := by
        intro x
        exact (invoked_congr x w.env { w.env with log := w.env.log ++ invoked a w.env (handlers w e) }
          rfl rfl _).trans (invoked_filter_live x w.env _)
      simp only [this, List.flatMap_cons, List.append_assoc]

/-! ## A pass that meets a record of another kind -/

theorem sweep_append {T : Type} (eff : Slot → Env T → Env T) (ys : List eventHandler) :
    ∀ (xs : List eventHandler) (v : Env T),
      sweep eff (xs ++ ys) v
        = ((sweep eff xs v).1 ++ (sweep eff ys (sweep eff xs v).2).1,
            (sweep eff ys (sweep eff xs v).2).2) := by
  intro xs
  induction xs with
  | nil => intro v; simp [sweep]
  | cons x xs ih =>
    intro v
    by_cases hd : dead v x.c = true
    · rw [List.cons_append, sweep_cons_dead _ _ _ _ hd, sweep_cons_dead _ _ _ _ hd, ih]
    · have hd : dead v x.c = false := by simpa using hd
      rw [List.cons_append, sweep_cons_live _ _ _ _ hd, sweep_cons_live _ _ _ _ hd, ih]
      rfl

theorem IsDisposed_of_allocated {T : Type} (v v1 : Env T) (hd : v1.disposed = v.disposed)
    (hf : ∀ q, q < v.nextOneshot → (q ∈ v1.fired ↔ q ∈ v.fired)) (c : connection)
    (hc : c.allocated v = true) : c.IsDisposed v1 = c.IsDisposed v := by
  induction c with
  | nil => rfl
  | removed => rfl
  | user p => simp [connection.IsDisposed, hd]
  | oneshot p conn ih =>
    simp only [connection.allocated, Bool.and_eq_true, decide_eq_true_eq] at hc
    simp [connection.IsDisposed, hf p hc.1, ih hc.2]

theorem dead_of_allocated {T : Type} (v v1 : Env T) (hd : v1.disposed = v.disposed)
    (hf : ∀ q, q < v.nextOneshot → (q ∈ v1.fired ↔ q ∈ v.fired)) (c : connection)
    (hc : c.allocated v = true) : dead v1 c = dead v c := by
  simp [dead, IsDisposed_of_allocated v v1 hd hf c hc]

theorem filter_live_of_allocated {T : Type} (v v1 : Env T) (hd : v1.disposed = v.disposed)
    (hf : ∀ q, q < v.nextOneshot → (q ∈ v1.fired ↔ q ∈ v.fired)) (hs : List eventHandler)
    (hc : ∀ h ∈ hs, h.c.allocated v = true) : hs.filter (live v1) = hs.filter (live v) := by
  apply List.filter_congr
  intro h hh
  simp [live, dead_of_allocated v v1 hd hf h.c (hc h hh)]

theorem invoked_of_allocated {T : Type} (arg : T) (v v1 : Env T)
    (hd : v1.disposed = v.disposed)
    (hf : ∀ q, q < v.nextOneshot → (q ∈ v1.fired ↔ q ∈ v.fired)) (hs : List eventHandler)
    (hc : ∀ h ∈ hs, h.c.allocated v = true) : invoked arg v1 hs = invoked arg v hs := by
  simp [invoked, filter_live_of_allocated v v1 hd hf hs hc]

theorem emitLoop_front {T : Type} (run : Slot → World T → Except Fault (World T))
    (eff : Slot → Env T → Env T) (e : Nat) (w : World T) (H rest : List eventHandler)
    (hwf : WF w e) (hH : handlers w e = H ++ rest)
    (hrun : ∀ h ∈ H, ∀ w1 : World T, run h.f w1 = Except.ok { w1 with env := eff h.f w1.env }) :
    ∃ w1, emitLoop run e (w.events e).handlers.arr (w.events e).handlers.len 0 0 w
          = emitLoop run e (w.events e).handlers.arr rest.length H.length
              (sweep eff H w.env).1.length w1 ∧
      w1.events = w.events ∧ w1.env = (sweep eff H w.env).2 ∧
      w1.array (w.events e).handlers.arr = (sweep eff H w.env).1
        ++ (w.array (w.events e).handlers.arr).drop (sweep eff H w.env).1.length ∧
      w1.arrays.length = w.arrays.length ∧
      (∀ b, b ≠ (w.events e).handlers.arr → w1.array b = w.array b) ∧
      (∀ j, (w1.array (w.events e).handlers.arr)[H.length + j]? = rest[j]? ∨
        rest.length ≤ j) := by
  have hlen := handlers_length w e hwf
  rw [hH, List.length_append] at hlen
  simp only [NumConnections] at hlen
  obtain ⟨h1, h2⟩ := hwf
  have hO : (List.drop 0 (w.array (w.events e).handlers.arr)).take H.length = H := by
    have : (handlers w e).take H.length = H := by rw [hH]; exact List.take_left _ _
    simp only [handlers, List.take_take] at this
    rw [List.drop_zero]
    rwa [Nat.min_eq_left (by omega)] at this
  obtain ⟨w1, g1, g2, g3, g4, g5, g6⟩ :=
    emitLoop_sweep run eff e (w.events e).handlers.arr (w.array (w.events e).handlers.arr)
      H.length 0 0 w [] rfl (by simp) rfl (Nat.le_refl 0) (by omega)
      (by omega) (by rw [hO]; exact hrun)
  rw [hO] at g1 g3 g4
  simp only [Nat.zero_add, List.nil_append] at g1 g4
  refine ⟨w1, ?_, g2, g3, g4, g5, g6, ?_⟩
  · rw [← hlen, emitLoop_add, g1]
    simp
  · intro j
    by_cases hj : j < rest.length
    · left
      have hk := sweep_length_le eff H w.env
      rw [g4, List.getElem?_append_right (by omega), List.getElem?_drop]
      rw [show (sweep eff H w.env).1.length + (H.length + j - (sweep eff H w.env).1.length)
        = H.length + j by omega]
      have : (handlers w e)[H.length + j]? = rest[j]? := by
        rw [hH, List.getElem?_append_right (by omega)]
        simp
      rw [← this]
      simp only [handlers]
      rw [List.getElem?_take_of_lt (by omega)]
    · right; omega

theorem emitWith_front_dead {T : Type} (run : Slot → World T → Except Fault (World T))
    (eff : Slot → Env T → Env T) (e : Nat) (w : World T) (H : List eventHandler)
    (o : eventHandler) (hwf : WF w e) (hH : handlers w e = H ++ [o])
    (hrun : ∀ h ∈ H, ∀ w1 : World T, run h.f w1 = Except.ok { w1 with env := eff h.f w1.env })
    (hd : dead (sweep eff H w.env).2 o.c = true) :
    ∃ w1, emitWith run e w = Except.ok w1 ∧ handlers w1 e = (sweep eff H w.env).1 ∧
      w1.env = (sweep eff H w.env).2 ∧ WF w1 e ∧
      NumConnections e w1 = (sweep eff H w.env).1.length := by
  obtain ⟨w1, g1, g2, g3, g4, g5, g6, g7⟩ := emitLoop_front run eff e w H [o] hwf hH hrun
  have hlen := handlers_length w e hwf
  rw [hH, List.length_append] at hlen
  simp only [NumConnections, List.length_singleton] at hlen
  obtain ⟨h1, h2⟩ := hwf
  have hk := sweep_length_le eff H w.env
  have hread : (w1.array (w.events e).handlers.arr)[H.length]? = some o := by
    rcases g7 0 with h | h
    · simpa using h
    · simp at h
  have hloop : emitLoop run e (w.events e).handlers.arr (w.events e).handlers.len 0 0 w
      = Except.ok ((sweep eff H w.env).1.length, w1) := by
    rw [g1]
    simp only [List.length_singleton, emitLoop, hread, g3, hd, if_true]
  refine ⟨w1.setHandlers e { (w1.events e).handlers with
    len := (sweep eff H w.env).1.length }, ?_, ?_, g3, ?_, ?_⟩
  · simp only [emitWith, hloop, g2]
    rw [if_pos (by omega)]
  · simp only [handlers, World.setHandlers, World.array, if_true, g2]
    have := g4
    simp only [World.array] at this
    rw [this]
    exact List.take_left _ _
  · constructor
    · simp only [World.setHandlers, if_true, g2]
      omega
    · simp only [World.setHandlers, World.array, if_true, g2]
      have := g4
      simp only [World.array] at this h2
      rw [this]
      simp only [List.length_append, List.length_drop]
      omega
  · simp [NumConnections, World.setHandlers]

theorem emitWith_front_fault {T : Type} (run : Slot → World T → Except Fault (World T))
    (eff : Slot → Env T → Env T) (e : Nat) (w : World T) (H post : List eventHandler)
    (r : eventHandler) (hwf : WF w e) (hH : handlers w e = H ++ r :: post)
    (hrun : ∀ h ∈ H, ∀ w1 : World T, run h.f w1 = Except.ok { w1 with env := eff h.f w1.env })
    (hl : dead (sweep eff H w.env).2 r.c = false)
    (hr : ∀ w1 : World T, w1.events = w.events → w1.env = (sweep eff H w.env).2 →
      w1.array (w.events e).handlers.arr = (sweep eff H w.env).1
        ++ (w.array (w.events e).handlers.arr).drop (sweep eff H w.env).1.length →
      w1.arrays.length = w.arrays.length →
      ∃ w2, run r.f w1 = Except.ok w2 ∧
        (w2.events e).handlers.len ≤ (sweep eff H w.env).1.length) :
    emitWith run e w = Except.error Fault.indexOutOfRange := by
  obtain ⟨w1, g1, g2, g3, g4, g5, g6, g7⟩ := emitLoop_front run eff e w H (r :: post) hwf hH hrun
  have hread : (w1.array (w.events e).handlers.arr)[H.length]? = some r := by
    rcases g7 0 with h | h
    · simpa using h
    · simp at h
  obtain ⟨w2, k1, k2⟩ := hr w1 g2 g3 g4 g5
  have hloop : emitLoop run e (w.events e).handlers.arr (w.events e).handlers.len 0 0 w
      = Except.error Fault.indexOutOfRange := by
    rw [g1]
    simp only [List.length_cons, emitLoop, hread, g3, hl, k1]
    rw [if_neg (Nat.not_lt.2 k2)]
    simp
  simp only [emitWith, hloop]

theorem run_inert {T : Type} (grow : Nat → Nat) (arg : T) (fuel : Nat) (H : List eventHandler)
    (hin : ∀ h ∈ H, h.f.inert = true ∧ h.f.depth < fuel) :
    ∀ h ∈ H, ∀ w1 : World T,
      exec grow arg fuel h.f w1 = Except.ok { w1 with env := h.f.effect arg w1.env } :=
  fun h hh w1 =>
    exec_simple grow arg fuel h.f w1 (Slot.simple_of_inert _ (hin h hh).1) (hin h hh).2

/-! ## One-shot listeners -/

theorem emits_stable {T : Type} (grow : Nat → Nat) (fuel e : Nat) (v : Env T)
    (H : List eventHandler)
    (hH : ∀ h ∈ H, h.c.allocated v = true ∧ h.f.inert = true ∧ h.f.depth < fuel) :
    ∀ (as : List T) (w : World T), WF w e → handlers w e = H.filter (live v) →
      w.env.disposed = v.disposed →
      (∀ q, q < v.nextOneshot → (q ∈ w.env.fired ↔ q ∈ v.fired)) →
      ∃ w1, emits grow fuel e as w = Except.ok w1 ∧ handlers w1 e = H.filter (live v) ∧
        w1.env.log = w.env.log ++ as.flatMap (fun x => invoked x v H) := by
  intro as
  induction as with
  | nil => intro w _ hh _ _; exact ⟨w, rfl, hh, by simp⟩
  | cons a as ih =>
    intro w hwf hh hd hf
    have hsub : ∀ h ∈ H.filter (live v), h.c.allocated v = true := fun h hm =>
      (hH h (List.mem_filter.1 hm).1).1
    have hin : ∀ h ∈ handlers w e, h.f.inert = true ∧ h.f.depth < fuel := by
      intro h hm
      rw [hh] at hm
      exact (hH h (List.mem_filter.1 hm).1).2
    obtain ⟨w1, g1, g2, g3, g4, _⟩ := Emit_inert grow fuel e a w hwf hin
    rw [hh, filter_live_of_allocated v w.env hd hf _ hsub, List.filter_filter] at g2
    simp only [Bool.and_self] at g2
    rw [hh, invoked_of_allocated a v w.env hd hf _ hsub, invoked_filter_live] at g3
    obtain ⟨w2, k1, k2, k3⟩ := ih w1 g4 g2 (by rw [g3]; exact hd) (by rw [g3]; exact hf)
    refine ⟨w2, ?_, k2, ?_⟩
    · rw [emits, g1]; exact k1
    · rw [k3, g3]; simp

theorem oneshot_first_emit {T : Type} (grow : Nat → Nat) (fuel e : Nat) (a : T) (w : World T)
    (conn : connection) (slot : Slot) (hwf : WF w e)
    (hH : ∀ h ∈ handlers w e, h.c.allocated w.env = true ∧ h.f.inert = true ∧ h.f.depth < fuel)
    (hlive : dead w.env conn = false) (hca : conn.allocated w.env = true)
    (hslot : slot.inert = true) (hfuel : slot.depth + 1 < fuel) :
    ∃ w1, Emit grow fuel e a (ConnectOneShot grow e conn slot w) = Except.ok w1 ∧
      handlers w1 e = (handlers w e).filter (live w.env)
        ++ [⟨connection.oneshot w.env.nextOneshot conn,
              Slot.seq (Slot.setFired w.env.nextOneshot) slot⟩] ∧
      w1.env = ⟨w.env.disposed,
        w.env.nextOneshot :: w.env.fired.filter (fun q => q != w.env.nextOneshot),
        w.env.nextOneshot + 1,
        w.env.log ++ invoked a w.env (handlers w e) ++ slot.calls a⟩ ∧
      WF w1 e := by
  obtain ⟨c1, c2, c3⟩ := ConnectOneShot_handlers grow e conn slot w hwf
  have hall : ∀ h ∈ handlers (ConnectOneShot grow e conn slot w) e,
      h.f.simple = true ∧ h.f.depth < fuel := by
    intro h hm
    rw [c1] at hm
    rcases List.mem_append.1 hm with hm | hm
    · exact ⟨Slot.simple_of_inert _ (hH h hm).2.1, (hH h hm).2.2⟩
    · rw [List.mem_singleton.1 hm]
      exact ⟨by simp [Slot.simple, Slot.simple_of_inert _ hslot], by simp [Slot.depth]; omega⟩
  obtain ⟨w1, g1, g2, g3, g4, _⟩ := Emit_simple grow fuel e a _ c2 hall
  generalize hv2 : (ConnectOneShot grow e conn slot w).env = v2 at c3 g2 g3
  have hd2 : v2.disposed = w.env.disposed := by rw [c3]
  have hrel : ∀ q, q < w.env.nextOneshot → (q ∈ v2.fired ↔ q ∈ w.env.fired) := by
    intro q hq
    rw [c3]
    simp only [List.mem_filter, bne_iff_ne, ne_eq, and_iff_left_iff_imp]
    intro _; omega
  have hsw := sweep_inert a (handlers w e) v2 (fun h hm => (hH h hm).2.1)
  rw [filter_live_of_allocated w.env v2 hd2 hrel _ (fun h hm => (hH h hm).1),
    invoked_of_allocated a w.env v2 hd2 hrel _ (fun h hm => (hH h hm).1)] at hsw
  generalize hv3 : ({ v2 with log := v2.log ++ invoked a w.env (handlers w e) } : Env T) = v3
    at hsw
  have hd3 : v3.disposed = w.env.disposed := by rw [← hv3]; exact hd2
  have hrel3 : ∀ q, q < w.env.nextOneshot → (q ∈ v3.fired ↔ q ∈ w.env.fired) := by
    rw [← hv3]; exact hrel
  have hnot : w.env.nextOneshot ∉ v3.fired := by
    rw [← hv3, c3]
    simp
  have hdead : dead v3 (connection.oneshot w.env.nextOneshot conn) = false := by
    have h1 := dead_of_allocated w.env v3 hd3 hrel3 conn hca
    rw [hlive] at h1
    simp only [dead, Bool.and_eq_false_imp, bne_iff_ne, ne_eq] at h1 ⊢
    intro _
    simp only [connection.IsDisposed, Bool.or_eq_false_iff, decide_eq_false_iff_not,
      Bool.and_eq_false_imp, bne_iff_ne, ne_eq]
    exact ⟨hnot, h1⟩
  rw [c1, sweep_append, hsw] at g2 g3
  simp only [] at g2 g3
  rw [sweep_cons_live _ _ _ _ hdead] at g2 g3
  simp only [sweep] at g2 g3
  refine ⟨w1, g1, g2, ?_, g4⟩
  rw [g3]
  simp only [Slot.effect, effect_inert a slot hslot]
  rw [← hv3, c3]

theorem emits_drop_dead_last {T : Type} (grow : Nat → Nat) (fuel e : Nat) (v : Env T)
    (H : List eventHandler) (o : eventHandler)
    (hH : ∀ h ∈ H, h.c.allocated v = true ∧ h.f.inert = true ∧ h.f.depth < fuel)
    (b : T) (bs : List T) (w : World T) (hwf : WF w e) (hh : handlers w e = H ++ [o])
    (hd : w.env.disposed = v.disposed)
    (hf : ∀ q, q < v.nextOneshot → (q ∈ w.env.fired ↔ q ∈ v.fired))
    (hdead : dead w.env o.c = true) :
    ∃ w1, emits grow fuel e (b :: bs) w = Except.ok w1 ∧ handlers w1 e = H.filter (live v) ∧
      w1.env.log = w.env.log ++ (b :: bs).flatMap (fun x => invoked x v H) := by
  have hin : ∀ h ∈ H, h.f.inert = true ∧ h.f.depth < fuel := fun h hm => (hH h hm).2
  have hal : ∀ h ∈ H, h.c.allocated v = true := fun h hm => (hH h hm).1
  have hsw := sweep_inert b H w.env (fun h hm => (hin h hm).1)
  rw [filter_live_of_allocated v w.env hd hf H hal,
    invoked_of_allocated b v w.env hd hf H hal] at hsw
  obtain ⟨w1, g1, g2, g3, g4, _⟩ :=
    emitWith_front_dead (exec grow b fuel) (Slot.effect b) e w H o hwf hh
      (run_inert grow b fuel H hin)
      (by rw [hsw]
          exact (dead_congr w.env { w.env with log := w.env.log ++ invoked b v H }
            rfl rfl o.c).trans hdead)
  rw [hsw] at g2 g3
  simp only [] at g2 g3
  obtain ⟨w2, k1, k2, k3⟩ := emits_stable grow fuel e v H hH bs w1 g4 g2
    (by rw [g3]; exact hd) (by rw [g3]; exact hf)
  refine ⟨w2, ?_, k2, ?_⟩
  · rw [emits]
    show (match emitWith (exec grow b fuel) e w with
      | Except.error x => Except.error x
      | Except.ok w1 => emits grow fuel e bs w1) = _
    rw [g1]; exact k1
  · rw [k3, g3]; simp

theorem oneshot_reemit_panics {T : Type} (grow : Nat → Nat) (fuel e : Nat) (a : T)
    (w : World T) (conn : connection) (hwf : WF w e)
    (hH : ∀ h ∈ handlers w e, dead w.env h.c = false ∧ h.c.allocated w.env = true ∧
      h.f.inert = true ∧ h.f.depth + 2 < fuel)
    (hlive : dead w.env conn = false) (hca : conn.allocated w.env = true) (hfuel : 2 < fuel) :
    Emit grow fuel e a (ConnectOneShot grow e conn (Slot.emit e) w)
      = Except.error Fault.indexOutOfRange := by
  obtain ⟨f, rfl⟩ : ∃ f, fuel = f + 2 := ⟨fuel - 2, by omega⟩
  obtain ⟨c1, c2, c3⟩ := ConnectOneShot_handlers grow e conn (Slot.emit e) w hwf
  generalize hw2 : ConnectOneShot grow e conn (Slot.emit e) w = w2 at c1 c2 c3
  have hinert : ∀ h ∈ handlers w e, h.f.inert = true := fun h hm => (hH h hm).2.2.1
  have hal : ∀ h ∈ handlers w e, h.c.allocated w.env = true := fun h hm => (hH h hm).2.1
  have hd2 : w2.env.disposed = w.env.disposed := by rw [c3]
  have hrel : ∀ q, q < w.env.nextOneshot → (q ∈ w2.env.fired ↔ q ∈ w.env.fired) := by
    intro q hq
    rw [c3]
    simp only [List.mem_filter, bne_iff_ne, ne_eq, and_iff_left_iff_imp]
    intro _; omega
  have hallive : (handlers w e).filter (live w.env) = handlers w e := by
    rw [List.filter_eq_self]
    intro h hm
    simp [live, (hH h hm).1]
  have hsw := sweep_inert a (handlers w e) w2.env hinert
  rw [filter_live_of_allocated w.env w2.env hd2 hrel _ hal,
    invoked_of_allocated a w.env w2.env hd2 hrel _ hal, hallive] at hsw
  generalize hv3 : ({ w2.env with log := w2.env.log ++ invoked a w.env (handlers w e) }
    : Env T) = v3 at hsw
  have hd3 : v3.disposed = w.env.disposed := by rw [← hv3]; exact hd2
  have hrel3 : ∀ q, q < w.env.nextOneshot → (q ∈ v3.fired ↔ q ∈ w.env.fired) := by
    rw [← hv3]; exact hrel
  have hnot : w.env.nextOneshot ∉ v3.fired := by
    rw [← hv3, c3]
    simp
  have hlive3 : dead v3 (connection.oneshot w.env.nextOneshot conn) = false := by
    have h1 := dead_of_allocated w.env v3 hd3 hrel3 conn hca
    rw [hlive] at h1
    simp only [dead, Bool.and_eq_false_imp, bne_iff_ne, ne_eq] at h1 ⊢
    intro _
    simp only [connection.IsDisposed, Bool.or_eq_false_iff, decide_eq_false_iff_not,
      Bool.and_eq_false_imp, bne_iff_ne, ne_eq]
    exact ⟨hnot, h1⟩
  apply emitWith_front_fault (exec grow a (f + 2)) (Slot.effect a) e w2 (handlers w e) []
    ⟨connection.oneshot w.env.nextOneshot conn, Slot.seq (Slot.setFired w.env.nextOneshot)
      (Slot.emit e)⟩ c2 c1
    (run_inert grow a (f + 2) _ (fun h hm => ⟨hinert h hm, by have := (hH h hm).2.2.2; omega⟩))
  · rw [hsw]; exact hlive3
  · rw [hsw]
    intro w1 e1 e2 e3 e4
    simp only [] at e2 e3
    -- the array is what it was: every record before the one-shot record was kept
    have hO : w1.array (w2.events e).handlers.arr = w2.array (w2.events e).handlers.arr := by
      have hl := handlers_length w2 e c2
      rw [c1, List.length_append] at hl
      simp only [NumConnections, List.length_singleton] at hl
      have h5 : List.take (handlers w e).length (handlers w2 e) = handlers w e := by
        rw [c1]; exact List.take_left _ _
      generalize handlers w e = Hs at h5 hl e3
      unfold handlers at h5
      rw [List.take_take, Nat.min_eq_left (by omega)] at h5
      rw [e3]
      conv_lhs => arg 1; rw [← h5]
      exact List.take_append_drop _ _
    let w1f : World T := { w1 with env := { w1.env with
      fired := w.env.nextOneshot :: w1.env.fired } }
    have hwf1 : WF w1f e := by
      obtain ⟨p1, p2⟩ := c2
      constructor
      · show (w1.events e).handlers.len ≤ (w1.events e).handlers.cap
        rw [e1]; exact p1
      · show (w1.events e).handlers.cap ≤ (w1.array (w1.events e).handlers.arr).length
        rw [e1, hO]; exact p2
    have hh1 : handlers w1f e = handlers w e
        ++ [⟨connection.oneshot w.env.nextOneshot conn,
              Slot.seq (Slot.setFired w.env.nextOneshot) (Slot.emit e)⟩] := by
      rw [← c1]
      show List.take (w1.events e).handlers.len (w1.array (w1.events e).handlers.arr) = _
      rw [e1, hO]
      rfl
    have hsw1 := sweep_inert a (handlers w e) w1f.env hinert
    have hdead : dead (sweep (Slot.effect a) (handlers w e) w1f.env).2
        (connection.oneshot w.env.nextOneshot conn) = true := by
      rw [hsw1]
      simp [dead, connection.IsDisposed, w1f]
    obtain ⟨w3, k1, _, _, _, k5⟩ := emitWith_front_dead (exec grow a f) (Slot.effect a) e w1f
      (handlers w e) _ hwf1 hh1
      (run_inert grow a f _ (fun h hm => ⟨hinert h hm, by have := (hH h hm).2.2.2; omega⟩))
      hdead
    refine ⟨w3, ?_, ?_⟩
    · obtain ⟨g, rfl⟩ : ∃ g, f = g + 1 := ⟨f - 1, by omega⟩
      simp only [exec]
      exact k1
    · have := sweep_length_le (Slot.effect a) (handlers w e) w1f.env
      simp only [NumConnections] at k5
      rw [k5]
      exact this

/-! ## Disconnect of a handle that no record carries -/

theorem set_getD_self {α : Type} (d : α) : ∀ (l : List α) (i : Nat), l.set i (l.getD i d) = l := by
  intro l
  induction l with
  | nil => intro i; rfl
  | cons a l ih =>
    intro i
    cases i with
    | zero => rfl
    | succ i =>
      simp only [List.set_cons_succ, List.getD_cons_succ]
      rw [ih i]

theorem Disconnect_absent {T : Type} (e : Nat) (conn : connection) (w : World T)
    (h : ∀ x ∈ handlers w e, x.c ≠ conn) : Disconnect e conn w = w := by
  have h1 : disconnectLoop conn (handlers w e) = handlers w e := disconnectLoop_none conn _ h
  have h2 : w.arrays.set (w.events e).handlers.arr
      (disconnectLoop conn ((w.array (w.events e).handlers.arr).take (w.events e).handlers.len)
        ++ (w.array (w.events e).handlers.arr).drop (w.events e).handlers.len) = w.arrays := by
    have h3 : disconnectLoop conn
        ((w.array (w.events e).handlers.arr).take (w.events e).handlers.len)
        = (w.array (w.events e).handlers.arr).take (w.events e).handlers.len := h1
    rw [h3, List.take_append_drop]
    exact set_getD_self [] w.arrays _
  show ({ w with arrays := _ } : World T) = w
  rw [h2]

/-! ## Order of the records and the stores of Flush -/

theorem disconnectLoop_live_sublist {T : Type} (v : Env T) (conn : connection) :
    ∀ hs : List eventHandler,
      List.Sublist ((disconnectLoop conn hs).filter (live v)) (hs.filter (live v)) := by
  intro hs
  induction hs with
  | nil => simp [disconnectLoop]
  | cons h hs ih =>
    simp only [disconnectLoop]
    split
    · have hrem : live v ({ h with c := connection.removed } : eventHandler) = false := by
        simp [live, dead, connection.IsDisposed]
      rw [List.filter_cons_of_neg (by simp [hrem])]
      exact List.Sublist.filter _ (List.sublist_cons_self h hs)
    · by_cases hl : live v h = true
      · rw [List.filter_cons_of_pos hl, List.filter_cons_of_pos hl]
        exact List.Sublist.cons₂ _ ih
      · rw [List.filter_cons_of_neg hl, List.filter_cons_of_neg hl]
        exact ih

theorem flushWrites_le {T : Type} (e a : Nat) :
    ∀ (k i length : Nat) (w : World T), length ≤ i →
      ∀ p ∈ flushWrites e a k i length w, p.2 ≤ p.1 ∧ i ≤ p.1 ∧ length ≤ p.2 := by
  intro k
  induction k with
  | zero => intro i length w _ p hp; simp [flushWrites] at hp
  | succ k ih =>
    intro i length w hle p hp
    simp only [flushWrites] at hp
    cases hread : (w.array a)[i]? with
    | none => rw [hread] at hp; simp at hp
    | some h =>
      rw [hread] at hp
      simp only at hp
      split at hp
      · have := ih (i + 1) length w (by omega) p hp
        omega
      · split at hp
        · rcases List.mem_cons.1 hp with hp | hp
          · rw [hp]; simp; omega
          · have := ih (i + 1) (length + 1) _ (by omega) p hp
            omega
        · simp at hp

theorem flushLoop_writes {T : Type} (e a : Nat) :
    ∀ (k i length : Nat) (w : World T) (r : Nat × World T),
      flushLoop e a k i length w = Except.ok r →
      r.1 = length + (flushWrites e a k i length w).length := by
  intro k
  induction k with
  | zero =>
    intro i length w r h
    simp only [flushLoop, Except.ok.injEq] at h
    simp [flushWrites, ← h]
  | succ k ih =>
    intro i length w r h
    simp only [flushLoop] at h
    simp only [flushWrites]
    cases hread : (w.array a)[i]? with
    | none => rw [hread] at h; simp at h
    | some x =>
      rw [hread] at h
      simp only at h ⊢
      split
      · rename_i hd
        rw [if_pos hd] at h
        exact ih _ _ _ _ h
      · rename_i hd
        rw [if_neg hd] at h
        split
        · rename_i hlt
          rw [if_pos hlt] at h
          have := ih _ _ _ _ h
          simp only [List.length_cons]
          omega
        · rename_i hlt
          rw [if_neg hlt] at h
          simp at h

/-! ## Emit with callbacks that call Connect -/

theorem take_set_self {α : Type} (x : α) : ∀ (l : List α) (n : Nat),
    (l.set n x).take n = l.take n := by
  intro l
  induction l with
  | nil => intro n; simp
  | cons a l ih =>
    intro n
    cases n with
    | zero => simp
    | succ n => simp only [List.set_cons_succ, List.take_succ_cons, ih n]

theorem take_of_take_eq {α : Type} (l1 l2 : List α) (L m : Nat) (h : l1.take L = l2.take L)
    (hm : m ≤ L) : l1.take m = l2.take m := by
  have := congrArg (List.take m) h
  simpa [List.take_take, Nat.min_eq_left hm] using this

theorem drop_take_of_take_eq {α : Type} (l1 l2 : List α) (L i k : Nat)
    (h : l1.take L = l2.take L) (hik : i + k ≤ L) :
    (l1.drop i).take k = (l2.drop i).take k := by
  rw [List.take_drop, List.take_drop, take_of_take_eq l1 l2 L (i + k) h hik]

theorem head_of_drop_take {α : Type} (l : List α) (i k : Nat) (h : α) (rest : List α)
    (hd : (l.drop i).take (k + 1) = h :: rest) :
    l[i]? = some h ∧ (l.drop (i + 1)).take k = rest := by
  cases hx : l.drop i with
  | nil => rw [hx] at hd; simp at hd
  | cons x xs =>
    rw [hx, List.take_succ_cons] at hd
    simp only [List.cons.injEq] at hd
    have h0 : (l.drop i)[0]? = some x := by rw [hx]; simp
    rw [List.getElem?_drop] at h0
    have h1 : l.drop (i + 1) = xs := by
      have := congrArg List.tail hx
      simpa [List.tail_drop] using this
    exact ⟨by simpa [hd.1] using h0, by rw [h1]; exact hd.2⟩

theorem Grows.refl {T : Type} (e a0 : Nat) (w : World T) (hwf : WF w e) : Grows e a0 w w :=
  ⟨hwf, Nat.le_refl _, Nat.le_refl _, rfl, rfl⟩

theorem Grows.env {T : Type} (e a0 : Nat) (w : World T) (v : Env T) (hwf : WF w e) :
    Grows e a0 w { w with env := v } :=
  ⟨hwf, Nat.le_refl _, Nat.le_refl _, rfl, rfl⟩

theorem Grows.trans {T : Type} (e a0 : Nat) (w1 w2 w3 : World T) (h12 : Grows e a0 w1 w2)
    (h23 : Grows e a0 w2 w3) : Grows e a0 w1 w3 := by
  obtain ⟨_, a2, a3, a4, a5⟩ := h12
  obtain ⟨b1, b2, b3, b4, b5⟩ := h23
  refine ⟨b1, Nat.le_trans a2 b2, Nat.le_trans a3 b3, ?_, ?_⟩
  · rw [take_of_take_eq _ _ _ _ b4 a2, a4]
  · rw [take_of_take_eq _ _ _ _ b5 a2, a5]

theorem Connect_grows {T : Type} (grow : Nat → Nat) (e a0 : Nat) (c : connection) (s : Slot)
    (w : World T) (hwf : WF w e) (ha : a0 < w.arrays.length) :
    Grows e a0 w (Connect grow e c s w) := by
  have hwf2 := (Connect_handlers grow e c s w hwf).2
  obtain ⟨h1, h2⟩ := hwf
  refine ⟨hwf2, ?_, ?_, ?_, ?_⟩
  all_goals unfold Connect
  all_goals simp only
  all_goals split
  · simp [World.setHandlers]
  · simp [World.setHandlers]
  · simp [World.setHandlers, World.store]
  · simp [World.setHandlers]
  · rename_i hlt
    have hne : w.array (w.events e).handlers.arr ≠ [] := by
      intro h0
      rw [h0] at h2
      simp at h2
      omega
    have halt := array_lt_of_ne_nil w _ hne
    simp only [World.setHandlers, if_true]
    show List.take _ ((w.store _ _ _).array _) = _
    rw [array_store_same w _ _ _ halt, take_set_self]
  · simp only [World.setHandlers, if_true]
    show List.take _ (({ w with arrays := _ } : World T).array w.arrays.length) = _
    have : ∀ fresh : List eventHandler,
        ({ w with arrays := w.arrays ++ [fresh] } : World T).array w.arrays.length = fresh := by
      intro fresh
      simp [World.array]
    rw [this, List.append_assoc, List.take_append_of_le_length (by
      rw [List.length_take]; omega), List.take_take]
    simp
  · rename_i hlt
    by_cases hc : a0 = (w.events e).handlers.arr
    · have hne : w.array (w.events e).handlers.arr ≠ [] := by
        intro h0
        rw [h0] at h2
        simp at h2
        omega
      have halt := array_lt_of_ne_nil w _ hne
      show List.take _ ((w.store _ _ _).array _) = _
      rw [hc, array_store_same w _ _ _ halt, take_set_self]
    · show List.take _ ((w.store _ _ _).array _) = _
      rw [array_store_other w _ _ _ _ hc]
  · simp only [World.setHandlers, World.array, List.getD_eq_getElem?_getD]
    rw [List.getElem?_append_left ha]

theorem effect_appends {T : Type} (arg : T) (e : Nat) (s : Slot) (hs : s.appends e = true)
    (v : Env T) : s.effect arg v = { v with log := v.log ++ s.calls arg } := by
  induction s generalizing v with
  | seq a b iha ihb =>
    simp only [Slot.appends, Bool.and_eq_true] at hs
    simp [Slot.effect, Slot.calls, iha hs.1, ihb hs.2]
  | skip => simp [Slot.effect, Slot.calls]
  | call id => simp [Slot.effect, Slot.calls]
  | connect e1 c slot _ => simp [Slot.effect, Slot.calls]
  | nil => simp [Slot.appends] at hs
  | setDisposed p b => simp [Slot.appends] at hs
  | setFired p => simp [Slot.appends] at hs
  | emit e => simp [Slot.appends] at hs
  | reset e => simp [Slot.appends] at hs
  | flush e => simp [Slot.appends] at hs
  | disconnect e c => simp [Slot.appends] at hs

theorem sweep_appends {T : Type} (arg : T) (e : Nat) (hs : List eventHandler) :
    ∀ v : Env T, (∀ h ∈ hs, h.f.appends e = true) →
      sweep (Slot.effect arg) hs v
        = (hs.filter (live v), { v with log := v.log ++ invoked arg v hs }) := by
  induction hs with
  | nil => intro v _; simp [sweep, invoked]
  | cons h hs ih =>
    intro v hin
    have hin1 : ∀ x ∈ hs, x.f.appends e = true := fun x hx => hin x (List.mem_cons_of_mem _ hx)
    by_cases hd : dead v h.c = true
    · rw [sweep_cons_dead _ _ _ _ hd, ih v hin1]
      simp [live, hd, invoked]
    · have hd : dead v h.c = false := by simpa using hd
      rw [sweep_cons_live _ _ _ _ hd, ih _ hin1,
        effect_appends arg e h.f (hin h (List.mem_cons_self _ _))]
      have hl : live { v with log := v.log ++ h.f.calls arg } = live v :=
        live_congr _ _ rfl rfl
      simp [invoked, hl, live, hd]

theorem exec_appends {T : Type} (grow : Nat → Nat) (arg : T) (e a0 : Nat) :
    ∀ (fuel : Nat) (s : Slot) (w : World T), s.appends e = true → s.depth < fuel →
      WF w e → a0 < w.arrays.length →
      ∃ w2, exec grow arg fuel s w = Except.ok w2 ∧ w2.env = s.effect arg w.env ∧
        Grows e a0 w w2 := by
  intro fuel
  induction fuel with
  | zero => intro s w _ hd; omega
  | succ n ih =>
    intro s w hs hd hwf ha
    cases s with
    | seq a b =>
      simp only [Slot.appends, Bool.and_eq_true] at hs
      simp only [Slot.depth] at hd
      obtain ⟨w1, a1, a2, a3⟩ := ih a w hs.1 (by omega) hwf ha
      obtain ⟨w2, b1, b2, b3⟩ := ih b w1 hs.2 (by omega) a3.1 (by have := a3.2.2.1; omega)
      refine ⟨w2, ?_, ?_, Grows.trans e a0 w w1 w2 a3 b3⟩
      · simp only [exec, a1, b1]
      · rw [b2, a2]; rfl
    | skip => exact ⟨w, rfl, rfl, Grows.refl e a0 w hwf⟩
    | call id => exact ⟨_, rfl, rfl, Grows.env e a0 w _ hwf⟩
    | connect e1 c slot =>
      simp only [Slot.appends, beq_iff_eq] at hs
      subst hs
      exact ⟨_, rfl, by rw [Connect_env]; rfl, Connect_grows grow e1 a0 c slot w hwf ha⟩
    | nil => simp [Slot.appends] at hs
    | setDisposed p b => simp [Slot.appends] at hs
    | setFired p => simp [Slot.appends] at hs
    | emit e => simp [Slot.appends] at hs
    | reset e => simp [Slot.appends] at hs
    | flush e => simp [Slot.appends] at hs
    | disconnect e c => simp [Slot.appends] at hs

theorem emitLoop_grow {T : Type} (run : Slot → World T → Except Fault (World T))
    (eff : Slot → Env T → Env T) (e a0 : Nat) :
    ∀ (todo : List eventHandler) (i length : Nat) (w : World T),
      WF w e → length ≤ i → i + todo.length ≤ (w.events e).handlers.len →
      ((w.array a0).drop i).take todo.length = todo →
      (∀ h ∈ todo, ∀ w1 : World T, WF w1 e → a0 < w1.arrays.length →
        ∃ w2, run h.f w1 = Except.ok w2 ∧ w2.env = eff h.f w1.env ∧ Grows e a0 w1 w2) →
      ∃ w1, emitLoop run e a0 todo.length i length w
            = Except.ok (length + (sweep eff todo w.env).1.length, w1) ∧
        w1.env = (sweep eff todo w.env).2 ∧ WF w1 e ∧
        (w.events e).handlers.len ≤ (w1.events e).handlers.len ∧
        (w1.array (w1.events e).handlers.arr).take (length + (sweep eff todo w.env).1.length)
          = (w.array (w.events e).handlers.arr).take length ++ (sweep eff todo w.env).1 := by
  intro todo
  induction todo with
  | nil =>
    intro i length w hwf _ _ _ _
    exact ⟨w, by simp [emitLoop, sweep], by simp [sweep], hwf, Nat.le_refl _, by simp [sweep]⟩
  | cons h rest ih =>
    intro i length w hwf hle hik hD hrun
    simp only [List.length_cons] at hik hD
    obtain ⟨hread, hD1⟩ := head_of_drop_take _ _ _ _ _ hD
    have hrun1 : ∀ x ∈ rest, ∀ w1 : World T, WF w1 e → a0 < w1.arrays.length →
        ∃ w2, run x.f w1 = Except.ok w2 ∧ w2.env = eff x.f w1.env ∧ Grows e a0 w1 w2 :=
      fun x hx => hrun x (List.mem_cons_of_mem _ hx)
    have ha : a0 < w.arrays.length := by
      apply array_lt_of_ne_nil
      intro h0
      rw [h0] at hread
      simp at hread
    by_cases hd : dead w.env h.c = true
    · obtain ⟨w1, g1, g2, g3, g4, g5⟩ := ih (i + 1) length w hwf (by omega) (by omega) hD1 hrun1
      rw [sweep_cons_dead eff _ _ _ hd]
      refine ⟨w1, ?_, g2, g3, g4, g5⟩
      simp only [List.length_cons, emitLoop, hread, hd, if_true]
      exact g1
    · have hd : dead w.env h.c = false := by simpa using hd
      obtain ⟨w2, r1, r2, r3, r4, r5, r6, r7⟩ := hrun h (List.mem_cons_self _ _) w hwf ha
      have hlt : length < (w2.events e).handlers.len := by omega
      have hlen2 : length < (w2.array (w2.events e).handlers.arr).length := by
        have := r3.1; have := r3.2; omega
      have hcur : (w2.events e).handlers.arr < w2.arrays.length := by
        apply array_lt_of_ne_nil
        intro h0
        rw [h0] at hlen2
        simp at hlen2
      have hst := array_store_same w2 (w2.events e).handlers.arr length h hcur
      have hwf3 : WF (w2.store (w2.events e).handlers.arr length h) e := by
        constructor
        · exact r3.1
        · show (w2.events e).handlers.cap
            ≤ ((w2.store _ _ _).array (w2.events e).handlers.arr).length
          rw [hst, List.length_set]
          exact r3.2
      have hD3 : (((w2.store (w2.events e).handlers.arr length h).array a0).drop (i + 1)).take
          rest.length = rest := by
        have h2 : ((w2.array a0).drop (i + 1)).take rest.length = rest := by
          rw [drop_take_of_take_eq _ _ _ _ _ r7 (by omega)]
          exact hD1
        by_cases hc : a0 = (w2.events e).handlers.arr
        · rw [hc, hst, List.drop_set_of_lt _ _ (by omega)]
          rw [hc] at h2
          exact h2
        · rw [array_store_other _ _ _ _ _ hc]
          exact h2
      have hC3 : ((w2.store (w2.events e).handlers.arr length h).array
          (w2.events e).handlers.arr).take (length + 1)
          = (w.array (w.events e).handlers.arr).take length ++ [h] := by
        rw [hst, take_succ_set _ _ _ hlen2, take_of_take_eq _ _ _ _ r6 (by omega)]
      obtain ⟨w1, g1, g2, g3, g4, g5⟩ := ih (i + 1) (length + 1)
        (w2.store (w2.events e).handlers.arr length h) hwf3 (by omega)
        (by show i + 1 + rest.length ≤ (w2.events e).handlers.len; omega) hD3 hrun1
      have henv : (w2.store (w2.events e).handlers.arr length h).env = eff h.f w.env := r2
      rw [henv] at g1 g2 g5
      rw [sweep_cons_live eff _ _ _ hd]
      refine ⟨w1, ?_, g2, g3, ?_, ?_⟩
      · simp only [List.length_cons, emitLoop, hread, hd, r1]
        simp only [Bool.false_eq_true, if_false, hlt, if_true]
        rw [g1]
        congr 2
        omega
      · have : (w2.events e).handlers.len ≤ (w1.events e).handlers.len := g4
        omega
      · simp only [List.length_cons]
        rw [show length + ((sweep eff rest (eff h.f w.env)).1.length + 1)
          = length + 1 + (sweep eff rest (eff h.f w.env)).1.length by omega, g5]
        have hev : ((w2.store (w2.events e).handlers.arr length h).events e).handlers.arr
            = (w2.events e).handlers.arr := rfl
        rw [hev, hC3]
        simp

theorem Emit_appends {T : Type} (grow : Nat → Nat) (fuel e : Nat) (arg : T) (w : World T)
    (hwf : WF w e) (hs : ∀ h ∈ handlers w e, h.f.appends e = true ∧ h.f.depth < fuel) :
    ∃ w1, Emit grow fuel e arg w = Except.ok w1 ∧
      handlers w1 e = (handlers w e).filter (live w.env) ∧
      w1.env = { w.env with log := w.env.log ++ invoked arg w.env (handlers w e) } ∧ WF w1 e ∧
      NumConnections e w1 = ((handlers w e).filter (live w.env)).length := by
  have hlen := handlers_length w e hwf
  simp only [NumConnections] at hlen
  have hD : ((w.array (w.events e).handlers.arr).drop 0).take (handlers w e).length
      = handlers w e := by
    rw [hlen]; rfl
  obtain ⟨w1, g1, g2, g3, g4, g5⟩ :=
    emitLoop_grow (exec grow arg fuel) (Slot.effect arg) e (w.events e).handlers.arr
      (handlers w e) 0 0 w hwf (Nat.le_refl 0) (by omega) hD
      (fun h hh w1 hw1 ha =>
        exec_appends grow arg e _ fuel h.f w1 (hs h hh).1 (hs h hh).2 hw1 ha)
  rw [sweep_appends arg e _ _ (fun h hh => (hs h hh).1)] at g1 g2 g5
  simp only [Nat.zero_add, List.take_zero, List.nil_append] at g1 g5
  have hk : ((handlers w e).filter (live w.env)).length ≤ (w1.events e).handlers.len := by
    have := List.length_filter_le (live w.env) (handlers w e)
    omega
  rw [hlen] at g1
  refine ⟨w1.setHandlers e { (w1.events e).handlers with
    len := ((handlers w e).filter (live w.env)).length }, ?_, ?_, g2, ?_, ?_⟩
  · simp only [Emit, emitWith, g1]
    rw [if_pos (by have := g3.1; omega)]
  · simp only [handlers, World.setHandlers, World.array, if_true]
    have := g5
    simp only [World.array, handlers] at this
    exact this
  · constructor
    · simp only [World.setHandlers, if_true]
      have := g3.1
      omega
    · simp only [World.setHandlers, World.array, if_true]
      have := g3.2
      simp only [World.array] at this
      exact this
  · simp [NumConnections, World.setHandlers]

theorem emits_appends {T : Type} (grow : Nat → Nat) (fuel e : Nat) :
    ∀ (as : List T) (a : T) (w : World T), WF w e →
      (∀ h ∈ handlers w e, h.f.appends e = true ∧ h.f.depth < fuel) →
      ∃ w1, emits grow fuel e (a :: as) w = Except.ok w1 ∧
        handlers w1 e = (handlers w e).filter (live w.env) ∧
        w1.env = { w.env with log := w.env.log
          ++ (a :: as).flatMap (fun x => invoked x w.env (handlers w e)) } ∧
        WF w1 e := by
  intro as
  induction as with
  | nil =>
    intro a w hwf hin
    obtain ⟨w1, h1, h2, h3, h4, _⟩ := Emit_appends grow fuel e a w hwf hin
    exact ⟨w1, by simp [emits, h1], h2, by simp [h3], h4⟩
  | cons b bs ih =>
    intro a w hwf hin
    obtain ⟨w1, h1, h2, h3, h4, _⟩ := Emit_appends grow fuel e a w hwf hin
    have hin1 : ∀ h ∈ handlers w1 e, h.f.appends e = true ∧ h.f.depth < fuel := by
      intro h hh
      rw [h2] at hh
      exact hin h (List.mem_filter.1 hh).1
    obtain ⟨w2, g1, g2, g3, g4⟩ := ih b w1 h4 hin1
    have hl : live w1.env = live w.env := live_congr _ _ (by rw [h3]) (by rw [h3])
    refine ⟨w2, ?_, ?_, ?_, g4⟩
    · rw [emits, h1]; exact g1
    · rw [g2, h2, hl, List.filter_filter]; simp
    · rw [g3, h2, h3]
      have : ∀ x : T, invoked x { w.env with log := w.env.log ++ invoked a w.env (handlers w e) }
          (List.filter (live w.env) (handlers w e)) = invoked x w.env (handlers w e) := by
        intro x
        exact (invoked_congr x w.env
          { w.env with log := w.env.log ++ invoked a w.env (handlers w e) }
          rfl rfl _).trans (invoked_filter_live x w.env _)
      simp only [this, List.flatMap_cons, List.append_assoc]

/-! ## Emit that forwards to another Event -/

theorem emitWith_sweep_full {T : Type} (run : Slot → World T → Except Fault (World T))
    (eff : Slot → Env T → Env T) (e : Nat) (w : World T) (hwf : WF w e)
    (hrun : ∀ h ∈ handlers w e, ∀ w1 : World T,
      run h.f w1 = Except.ok { w1 with env := eff h.f w1.env }) :
    ∃ w1, emitWith run e w = Except.ok w1 ∧
      handlers w1 e = (sweep eff (handlers w e) w.env).1 ∧
      w1.env = (sweep eff (handlers w e) w.env).2 ∧ WF w1 e ∧
      (w1.events e).handlers = { (w.events e).handlers with
        len := (sweep eff (handlers w e) w.env).1.length } ∧
      (∀ x, x ≠ e → w1.events x = w.events x) ∧
      (∀ b, b ≠ (w.events e).handlers.arr → w1.array b = w.array b) ∧
      w1.array (w.events e).handlers.arr = (sweep eff (handlers w e) w.env).1
        ++ (w.array (w.events e).handlers.arr).drop (sweep eff (handlers w e) w.env).1.length := by
  obtain ⟨h1, h2⟩ := hwf
  have hO : (List.drop 0 (w.array (w.events e).handlers.arr)).take (w.events e).handlers.len
      = handlers w e := rfl
  obtain ⟨w1, g1, g2, g3, g4, g5, g6⟩ :=
    emitLoop_sweep run eff e (w.events e).handlers.arr (w.array (w.events e).handlers.arr)
      (w.events e).handlers.len 0 0 w [] rfl (by simp) rfl (Nat.le_refl 0) (by omega)
      (by omega) (by rw [hO]; exact hrun)
  rw [hO] at g1 g3 g4
  have hk : (sweep eff (handlers w e) w.env).1.length ≤ (w.events e).handlers.len := by
    refine Nat.le_trans (sweep_length_le eff _ _) ?_
    simp [handlers]
  simp only [Nat.zero_add, List.nil_append] at g1 g4
  have g4a := g4
  simp only [World.array] at g4a h2
  refine ⟨w1.setHandlers e { (w1.events e).handlers with
    len := (sweep eff (handlers w e) w.env).1.length }, ?_, ?_, g3, ?_, ?_, ?_, ?_, ?_⟩
  · simp only [emitWith, g1, g2]
    rw [if_pos (by omega)]
  · simp only [handlers, World.setHandlers, World.array, if_true, g2]
    rw [g4a]
    exact List.take_left _ _
  · constructor
    · simp only [World.setHandlers, if_true, g2]
      omega
    · simp only [World.setHandlers, World.array, if_true, g2]
      rw [g4a]
      simp only [List.length_append, List.length_drop]
      omega
  · simp [World.setHandlers, g2]
  · intro x hx
    simp [World.setHandlers, hx, g2]
  · intro b hb
    exact g6 b hb
  · exact g4

theorem emitWith_front_last {T : Type} (run : Slot → World T → Except Fault (World T))
    (eff : Slot → Env T → Env T) (e : Nat) (w : World T) (H : List eventHandler)
    (r : eventHandler) (P : World T → Prop) (hwf : WF w e) (hH : handlers w e = H ++ [r])
    (hrun : ∀ h ∈ H, ∀ w1 : World T, run h.f w1 = Except.ok { w1 with env := eff h.f w1.env })
    (hl : dead (sweep eff H w.env).2 r.c = false)
    (hr : ∀ w1 : World T, w1.events = w.events → w1.env = (sweep eff H w.env).2 →
      w1.array (w.events e).handlers.arr = (sweep eff H w.env).1
        ++ (w.array (w.events e).handlers.arr).drop (sweep eff H w.env).1.length →
      (∀ b, b ≠ (w.events e).handlers.arr → w1.array b = w.array b) →
      ∃ w2, run r.f w1 = Except.ok w2 ∧ w2.events e = w.events e ∧
        w2.array (w.events e).handlers.arr = w1.array (w.events e).handlers.arr ∧ P w2) :
    ∃ w2, P w2 ∧ w2.events e = w.events e ∧
      w2.array (w.events e).handlers.arr = (sweep eff H w.env).1
        ++ (w.array (w.events e).handlers.arr).drop (sweep eff H w.env).1.length ∧
      emitWith run e w = Except.ok ((w2.store (w.events e).handlers.arr
        (sweep eff H w.env).1.length r).setHandlers e { (w.events e).handlers with
          len := (sweep eff H w.env).1.length + 1 }) := by
  obtain ⟨w1, g1, g2, g3, g4, g5, g6, g7⟩ := emitLoop_front run eff e w H [r] hwf hH hrun
  have hlen := handlers_length w e hwf
  rw [hH, List.length_append] at hlen
  simp only [NumConnections, List.length_singleton] at hlen
  obtain ⟨h1, h2⟩ := hwf
  have hk := sweep_length_le eff H w.env
  have hread : (w1.array (w.events e).handlers.arr)[H.length]? = some r := by
    rcases g7 0 with h | h
    · simpa using h
    · simp at h
  obtain ⟨w2, k1, k2, k3, k4⟩ := hr w1 g2 g3 g4 g6
  refine ⟨w2, k4, k2, by rw [k3, g4], ?_⟩
  have hloop : emitLoop run e (w.events e).handlers.arr (w.events e).handlers.len 0 0 w
      = Except.ok ((sweep eff H w.env).1.length + 1,
          w2.store (w.events e).handlers.arr (sweep eff H w.env).1.length r) := by
    have hlt : (sweep eff H w.env).1.length < (w.events e).handlers.len := by omega
    rw [g1]
    simp only [List.length_singleton, emitLoop, hread, g3, hl, k1, k2, hlt, if_true,
      Bool.false_eq_true, if_false]
  simp only [emitWith, hloop]
  have hev : ((w2.store (w.events e).handlers.arr (sweep eff H w.env).1.length r).events e)
      = w.events e := k2
  have hle : (sweep eff H w.env).1.length + 1 ≤ (w.events e).handlers.cap := by omega
  rw [hev, if_pos hle]

theorem Connect_frame {T : Type} (grow : Nat → Nat) (e : Nat) (c : connection) (s : Slot)
    (w : World T) (hwf : WF w e) :
    (∀ x, x ≠ e → (Connect grow e c s w).events x = w.events x) ∧
    (∀ b, (w.array b).length ≤ ((Connect grow e c s w).array b).length) ∧
    (∀ b, b ≠ (w.events e).handlers.arr → b ≠ w.arrays.length →
      (Connect grow e c s w).array b = w.array b) ∧
    (((Connect grow e c s w).events e).handlers.arr = (w.events e).handlers.arr ∨
      ((Connect grow e c s w).events e).handlers.arr = w.arrays.length) := by
  obtain ⟨h1, h2⟩ := hwf
  unfold Connect
  simp only
  split
  · rename_i hlt
    have hne : w.array (w.events e).handlers.arr ≠ [] := by
      intro h0
      rw [h0] at h2
      simp at h2
      omega
    have halt := array_lt_of_ne_nil w _ hne
    refine ⟨?_, ?_, ?_, Or.inl ?_⟩
    · intro x hx
      simp [World.setHandlers, World.store, hx]
    · intro b
      show _ ≤ ((w.store _ _ _).array b).length
      by_cases hb : b = (w.events e).handlers.arr
      · rw [hb, array_store_same w _ _ _ halt, List.length_set]
      · rw [array_store_other w _ _ _ _ hb]
    · intro b hb _
      show (w.store _ _ _).array b = _
      exact array_store_other w _ _ _ _ hb
    · simp [World.setHandlers]
  · refine ⟨?_, ?_, ?_, Or.inr ?_⟩
    · intro x hx
      simp [World.setHandlers, hx]
    · intro b
      simp only [World.setHandlers, World.array, List.getD_eq_getElem?_getD]
      by_cases hb : b < w.arrays.length
      · rw [List.getElem?_append_left hb]
      · rw [List.getElem?_eq_none (show w.arrays.length ≤ b by omega)]
        simp
    · intro b _ hb
      simp only [World.setHandlers, World.array, List.getD_eq_getElem?_getD]
      by_cases hlt : b < w.arrays.length
      · rw [List.getElem?_append_left hlt]
      · rw [List.getElem?_eq_none (show w.arrays.length ≤ b by omega),
          List.getElem?_eq_none (by simp; omega)]
    · simp [World.setHandlers]

theorem forward_emit {T : Type} (grow : Nat → Nat) (fuel e e2 : Nat) (a : T) (w : World T)
    (conn : connection) (hne : e ≠ e2) (hwf : WF w e) (hwf2 : WF w e2)
    (hsep : (w.events e).handlers.arr ≠ (w.events e2).handlers.arr ∨ NumConnections e2 w = 0)
    (hH : ∀ h ∈ handlers w e, h.f.inert = true ∧ h.f.depth < fuel)
    (hH2 : ∀ h ∈ handlers w e2, h.f.inert = true ∧ h.f.depth + 1 < fuel)
    (hlive : dead w.env conn = false) (hfuel : 0 < fuel) :
    ∃ w1, Emit grow fuel e a (Connect grow e conn (Slot.emit e2) w) = Except.ok w1 ∧
      handlers w1 e = (handlers w e).filter (live w.env) ++ [⟨conn, Slot.emit e2⟩] ∧
      handlers w1 e2 = (handlers w e2).filter (live w.env) ∧
      w1.env = { w.env with
        log := w.env.log ++ invoked a w.env (handlers w e) ++ invoked a w.env (handlers w e2) } := by
  obtain ⟨f, rfl⟩ : ∃ f, fuel = f + 1 := ⟨fuel - 1, by omega⟩
  obtain ⟨c1, c2⟩ := Connect_handlers grow e conn (Slot.emit e2) w hwf
  have c3 := Connect_env grow e conn (Slot.emit e2) w
  obtain ⟨f1, f2, f3, f4⟩ := Connect_frame grow e conn (Slot.emit e2) w hwf
  generalize Connect grow e conn (Slot.emit e2) w = w2 at c1 c2 c3 f1 f2 f3 f4
  have hev2 : w2.events e2 = w.events e2 := f1 e2 (Ne.symm hne)
  obtain ⟨p1, p2⟩ := hwf2
  -- the two Events do not share an array, unless the second holds no record
  have hz : (w.events e2).handlers.len = 0 → handlers w e2 = [] := by
    intro h0
    simp [handlers, h0]
  have F4 : (w.events e2).handlers.len = 0 ∨
      ((w2.events e).handlers.arr ≠ (w.events e2).handlers.arr ∧
        w2.array (w.events e2).handlers.arr = w.array (w.events e2).handlers.arr) := by
    by_cases h0 : (w.events e2).handlers.len = 0
    · exact Or.inl h0
    · right
      have hd : (w.events e).handlers.arr ≠ (w.events e2).handlers.arr := by
        rcases hsep with h | h
        · exact h
        · exact absurd h h0
      have hal : (w.events e2).handlers.arr < w.arrays.length := by
        apply array_lt_of_ne_nil
        intro hnil
        rw [hnil] at p2
        simp at p2
        omega
      constructor
      · rcases f4 with h | h
        · rw [h]; exact hd
        · rw [h]; omega
      · exact f3 _ (Ne.symm hd) (by omega)
  have hsw := sweep_inert a (handlers w e) w2.env (fun h hh => (hH h hh).1)
  rw [c3] at hsw
  generalize hv1 : ({ w.env with log := w.env.log ++ invoked a w.env (handlers w e) } : Env T)
    = v1 at hsw
  have hd1 : v1.disposed = w.env.disposed := by rw [← hv1]
  have hf1 : v1.fired = w.env.fired := by rw [← hv1]
  have hsw2 := sweep_inert a (handlers w e2) v1 (fun h hh => (hH2 h hh).1)
  rw [live_congr w.env v1 hd1 hf1, invoked_congr a w.env v1 hd1 hf1] at hsw2
  obtain ⟨w3, ⟨q1, q2, q3⟩, k2, k3, k4⟩ := emitWith_front_last (exec grow a (f + 1))
    (Slot.effect a) e w2 (handlers w e) ⟨conn, Slot.emit e2⟩
    (fun w3 => w3.env = { w.env with
        log := w.env.log ++ invoked a w.env (handlers w e) ++ invoked a w.env (handlers w e2) } ∧
      (w3.events e2).handlers = { (w.events e2).handlers with
        len := ((handlers w e2).filter (live w.env)).length } ∧
      ((w.events e2).handlers.len = 0 ∨
        (w3.array (w.events e2).handlers.arr).take ((handlers w e2).filter (live w.env)).length
          = (handlers w e2).filter (live w.env)))
    c2 c1 (run_inert grow a (f + 1) _ hH)
    (by rw [c3, hsw]
        exact (dead_congr w.env v1 hd1 hf1 conn).trans hlive)
    (by
      rw [c3, hsw]
      intro w1 e1 e3 e4 e6
      simp only [] at e3 e4
      have hev1 : w1.events e2 = w.events e2 := by rw [e1]; exact hev2
      have G2 : handlers w1 e2 = handlers w e2 := by
        rcases F4 with h0 | ⟨hd, ha⟩
        · simp [handlers, hev1, h0]
        · simp only [handlers, hev1]
          rw [e6 _ (Ne.symm hd), ha]
      have G3 : WF w1 e2 := by
        constructor
        · rw [hev1]; exact p1
        · rw [hev1]
          by_cases hd : (w.events e2).handlers.arr = (w2.events e).handlers.arr
          · rw [hd, e4]
            have hl2 := f2 (w.events e2).handlers.arr
            have hk := List.length_filter_le (live w.env) (handlers w e)
            have hlen := handlers_length w2 e c2
            rw [c1, List.length_append] at hlen
            simp only [NumConnections, List.length_singleton] at hlen
            have := c2.1; have := c2.2
            have p2a := p2
            rw [hd] at hl2 p2a
            simp only [List.length_append, List.length_drop]
            omega
          · rw [e6 _ hd]
            have := f2 (w.events e2).handlers.arr
            omega
      obtain ⟨w3, r1, r2, r3, _, r5, r6, r7, r8⟩ := emitWith_sweep_full (exec grow a f)
        (Slot.effect a) e2 w1 G3
        (by rw [G2]
            exact run_inert grow a f _ (fun h hh => ⟨(hH2 h hh).1, by
              have := (hH2 h hh).2; omega⟩))
      rw [G2, e3, hsw2] at r2 r3 r5 r8
      simp only [] at r2 r3 r5 r8
      rw [hev1] at r5 r7 r8
      refine ⟨w3, (by show emitWith (exec grow a f) e2 w1 = Except.ok w3; exact r1), ?_, ?_,
        by rw [r3, ← hv1], r5, ?_⟩
      · rw [r6 e hne, e1]
      · rcases F4 with h0 | ⟨hd, _⟩
        · by_cases hd : (w2.events e).handlers.arr = (w.events e2).handlers.arr
          · rw [hd, r8, hz h0]
            simp
          · exact r7 _ hd
        · exact r7 _ hd
      · by_cases h0 : (w.events e2).handlers.len = 0
        · exact Or.inl h0
        · right
          rw [r8]
          exact List.take_left _ _)
  have hk := List.length_filter_le (live w.env) (handlers w e)
  rw [c3, hsw] at k3 k4
  simp only [] at k3 k4
  have hlen := handlers_length w2 e c2
  rw [c1, List.length_append] at hlen
  simp only [NumConnections, List.length_singleton] at hlen
  have hz2 : (w.events e2).handlers.len = 0 → (handlers w e2).filter (live w.env) = [] := by
    intro h0
    rw [hz h0]
    rfl
  refine ⟨_, k4, ?_, ?_, q1⟩
  · generalize (handlers w e).filter (live w.env) = K at k3 hk
    have hlt : K.length < (w3.array (w2.events e).handlers.arr).length := by
      rw [k3]
      have := c2.1; have := c2.2
      simp only [List.length_append, List.length_drop]
      omega
    have hal : (w2.events e).handlers.arr < w3.arrays.length := by
      apply array_lt_of_ne_nil
      intro h0
      rw [h0] at hlt
      simp at hlt
    simp only [handlers, World.setHandlers, if_true]
    show List.take _ ((w3.store _ _ _).array _) = _
    rw [array_store_same w3 _ _ _ hal, take_succ_set _ _ _ hlt, k3, List.take_left]
  · generalize (handlers w e2).filter (live w.env) = K2 at q2 q3 hz2
    generalize (handlers w e).filter (live w.env) = K
    have hx : ((w3.store (w2.events e).handlers.arr K.length ⟨conn, Slot.emit e2⟩).setHandlers e
        { (w2.events e).handlers with len := K.length + 1 }).events e2 = w3.events e2 := by
      simp [World.setHandlers, World.store, Ne.symm hne]
    simp only [handlers, hx, q2]
    show List.take _ ((w3.store _ _ _).array _) = _
    by_cases hd : (w.events e2).handlers.arr = (w2.events e).handlers.arr
    · rcases F4 with h0 | ⟨hd1, _⟩
      · rw [hz2 h0]
        simp
      · exact absurd hd.symm hd1
    · rw [array_store_other w3 _ _ _ _ hd]
      rcases q3 with h0 | h
      · rw [hz2 h0]
        simp
      · exact h

/-! ## Callbacks that call Reset or Emit on the Event being emitted -/

theorem exec_resets {T : Type} (grow : Nat → Nat) (arg : T) (e : Nat) :
    ∀ (fuel : Nat) (s : Slot) (w : World T), s.resets e = true → s.depth < fuel →
      ∃ w2, exec grow arg fuel s w = Except.ok w2 ∧
        (w2.events e).handlers.len ≤ (w.events e).handlers.len ∧
        (s.hasReset = true → (w2.events e).handlers.len = 0) := by
  intro fuel
  induction fuel with
  | zero => intro s w _ hd; omega
  | succ n ih =>
    intro s w hs hd
    cases s with
    | seq a b =>
      simp only [Slot.resets, Bool.and_eq_true] at hs
      simp only [Slot.depth] at hd
      obtain ⟨w1, a1, a2, a3⟩ := ih a w hs.1 (by omega)
      obtain ⟨w2, b1, b2, b3⟩ := ih b w1 hs.2 (by omega)
      refine ⟨w2, by simp only [exec, a1, b1], by omega, ?_⟩
      intro hr
      simp only [Slot.hasReset, Bool.or_eq_true] at hr
      rcases hr with hr | hr
      · have := a3 hr
        omega
      · exact b3 hr
    | skip => exact ⟨w, rfl, Nat.le_refl _, by simp [Slot.hasReset]⟩
    | call id => exact ⟨_, rfl, Nat.le_refl _, by simp [Slot.hasReset]⟩
    | reset e1 =>
      simp only [Slot.resets, beq_iff_eq] at hs
      subst hs
      exact ⟨Reset e1 w, rfl, by simp [Reset, World.setHandlers],
        fun _ => by simp [Reset, World.setHandlers]⟩
    | nil => simp [Slot.resets] at hs
    | setDisposed p b => simp [Slot.resets] at hs
    | setFired p => simp [Slot.resets] at hs
    | emit e => simp [Slot.resets] at hs
    | flush e => simp [Slot.resets] at hs
    | disconnect e c => simp [Slot.resets] at hs
    | connect e c slot => simp [Slot.resets] at hs

theorem exec_reemits {T : Type} (grow : Nat → Nat) (arg : T) (e : Nat)
    (front : List eventHandler) (B : eventHandler) (D F : List Nat)
    (hin : ∀ h ∈ front, h.f.inert = true)
    (hlive : ∀ v : Env T, v.disposed = D → v.fired = F → ∀ h ∈ front, dead v h.c = false)
    (hdead : ∀ v : Env T, v.disposed = D → v.fired = F → dead v B.c = true) :
    ∀ (fuel : Nat) (s : Slot) (w : World T), s.reemits e = true → s.depth < fuel →
      (∀ h ∈ front, h.f.depth + s.depth + 1 < fuel) → WF w e →
      w.env.disposed = D → w.env.fired = F →
      (handlers w e = front ∨ handlers w e = front ++ [B]) →
      ∃ w2, exec grow arg fuel s w = Except.ok w2 ∧ WF w2 e ∧
        w2.env.disposed = D ∧ w2.env.fired = F ∧
        (handlers w2 e = front ∨ handlers w2 e = front ++ [B]) ∧
        (handlers w e = front → handlers w2 e = front) ∧
        (s.hasEmit = true → handlers w2 e = front) := by
  intro fuel
  induction fuel with
  | zero => intro s w _ hd; omega
  | succ n ih =>
    intro s w hs hd hdf hwf hD hF hh
    cases s with
    | seq a b =>
      simp only [Slot.reemits, Bool.and_eq_true] at hs
      simp only [Slot.depth] at hd hdf
      obtain ⟨w1, a1, a2, a3, a4, a5, a6, a7⟩ := ih a w hs.1 (by omega)
        (fun h hm => by have := hdf h hm; omega) hwf hD hF hh
      obtain ⟨w2, b1, b2, b3, b4, b5, b6, b7⟩ := ih b w1 hs.2 (by omega)
        (fun h hm => by have := hdf h hm; omega) a2 a3 a4 a5
      refine ⟨w2, by simp only [exec, a1, b1], b2, b3, b4, b5, fun h0 => b6 (a6 h0), ?_⟩
      intro hr
      simp only [Slot.hasEmit, Bool.or_eq_true] at hr
      rcases hr with hr | hr
      · exact b6 (a7 hr)
      · exact b7 hr
    | skip => exact ⟨w, rfl, hwf, hD, hF, hh, fun h0 => h0, by simp [Slot.hasEmit]⟩
    | call id => exact ⟨_, rfl, hwf, hD, hF, hh, fun h0 => h0, by simp [Slot.hasEmit]⟩
    | emit e1 =>
      simp only [Slot.reemits, beq_iff_eq] at hs
      subst hs
      simp only [Slot.depth] at hdf
      have hall : front.filter (live w.env) = front := by
        rw [List.filter_eq_self]
        intro h hm
        simp [live, hlive w.env hD hF h hm]
      have key : ∃ w2, emitWith (exec grow arg n) e1 w = Except.ok w2 ∧ WF w2 e1 ∧
          w2.env.disposed = D ∧ w2.env.fired = F ∧ handlers w2 e1 = front := by
        rcases hh with hh | hh
        · obtain ⟨w2, g1, g2, g3, g4, _⟩ := Emit_inert grow n e1 arg w hwf
            (by rw [hh]; exact fun h hm => ⟨hin h hm, by have := hdf h hm; omega⟩)
          rw [hh, hall] at g2
          exact ⟨w2, g1, g4, by rw [g3]; exact hD, by rw [g3]; exact hF, g2⟩
        · have hsw := sweep_inert arg front w.env hin
          obtain ⟨w2, g1, g2, g3, g4, _⟩ := emitWith_front_dead (exec grow arg n)
            (Slot.effect arg) e1 w front B hwf hh
            (run_inert grow arg n front
              (fun h hm => ⟨hin h hm, by have := hdf h hm; omega⟩))
            (by rw [hsw]; exact hdead _ hD hF)
          rw [hsw] at g2 g3
          simp only [] at g2 g3
          rw [hall] at g2
          exact ⟨w2, g1, g4, by rw [g3]; exact hD, by rw [g3]; exact hF, g2⟩
      obtain ⟨w2, g1, g2, g3, g4, g5⟩ := key
      exact ⟨w2, g1, g2, g3, g4, Or.inl g5, fun _ => g5, fun _ => g5⟩
    | nil => simp [Slot.reemits] at hs
    | setDisposed p b => simp [Slot.reemits] at hs
    | setFired p => simp [Slot.reemits] at hs
    | reset e => simp [Slot.reemits] at hs
    | flush e => simp [Slot.reemits] at hs
    | disconnect e c => simp [Slot.reemits] at hs
    | connect e c slot => simp [Slot.reemits] at hs

theorem oneshot_reemits_panic {T : Type} (grow : Nat → Nat) (fuel e : Nat) (a : T)
    (w : World T) (conn : connection) (slot : Slot) (hwf : WF w e)
    (hslot : slot.reemits e = true) (hemit : slot.hasEmit = true)
    (hH : ∀ h ∈ handlers w e, dead w.env h.c = false ∧ h.c.allocated w.env = true ∧
      h.f.inert = true ∧ h.f.depth + slot.depth + 2 < fuel)
    (hlive : dead w.env conn = false) (hca : conn.allocated w.env = true)
    (hfuel : slot.depth + 1 < fuel) :
    Emit grow fuel e a (ConnectOneShot grow e conn slot w)
      = Except.error Fault.indexOutOfRange := by
  obtain ⟨f, rfl⟩ : ∃ f, fuel = f + 1 := ⟨fuel - 1, by omega⟩
  obtain ⟨c1, c2, c3⟩ := ConnectOneShot_handlers grow e conn slot w hwf
  generalize hw2 : ConnectOneShot grow e conn slot w = w2 at c1 c2 c3
  have hinert : ∀ h ∈ handlers w e, h.f.inert = true := fun h hm => (hH h hm).2.2.1
  have hal : ∀ h ∈ handlers w e, h.c.allocated w.env = true := fun h hm => (hH h hm).2.1
  have hd2 : w2.env.disposed = w.env.disposed := by rw [c3]
  have hrel : ∀ q, q < w.env.nextOneshot → (q ∈ w2.env.fired ↔ q ∈ w.env.fired) := by
    intro q hq
    rw [c3]
    simp only [List.mem_filter, bne_iff_ne, ne_eq, and_iff_left_iff_imp]
    intro _; omega
  have hallive : (handlers w e).filter (live w.env) = handlers w e := by
    rw [List.filter_eq_self]
    intro h hm
    simp [live, (hH h hm).1]
  have hsw := sweep_inert a (handlers w e) w2.env hinert
  rw [filter_live_of_allocated w.env w2.env hd2 hrel _ hal,
    invoked_of_allocated a w.env w2.env hd2 hrel _ hal, hallive] at hsw
  generalize hv3 : ({ w2.env with log := w2.env.log ++ invoked a w.env (handlers w e) }
    : Env T) = v3 at hsw
  have hd3 : v3.disposed = w.env.disposed := by rw [← hv3]; exact hd2
  have hrel3 : ∀ q, q < w.env.nextOneshot → (q ∈ v3.fired ↔ q ∈ w.env.fired) := by
    rw [← hv3]; exact hrel
  have hnot : w.env.nextOneshot ∉ v3.fired := by
    rw [← hv3, c3]
    simp
  have hlive3 : dead v3 (connection.oneshot w.env.nextOneshot conn) = false := by
    have h1 := dead_of_allocated w.env v3 hd3 hrel3 conn hca
    rw [hlive] at h1
    simp only [dead, Bool.and_eq_false_imp, bne_iff_ne, ne_eq] at h1 ⊢
    intro _
    simp only [connection.IsDisposed, Bool.or_eq_false_iff, decide_eq_false_iff_not,
      Bool.and_eq_false_imp, bne_iff_ne, ne_eq]
    exact ⟨hnot, h1⟩
  apply emitWith_front_fault (exec grow a (f + 1)) (Slot.effect a) e w2 (handlers w e) []
    ⟨connection.oneshot w.env.nextOneshot conn, Slot.seq (Slot.setFired w.env.nextOneshot)
      slot⟩ c2 c1
    (run_inert grow a (f + 1) _ (fun h hm => ⟨hinert h hm, by have := (hH h hm).2.2.2; omega⟩))
  · rw [hsw]; exact hlive3
  · rw [hsw]
    intro w1 e1 e2 e3 e4
    simp only [] at e2 e3
    -- the array is what it was: every record before the one-shot record was kept
    have hO : w1.array (w2.events e).handlers.arr = w2.array (w2.events e).handlers.arr := by
      have hl := handlers_length w2 e c2
      rw [c1, List.length_append] at hl
      simp only [NumConnections, List.length_singleton] at hl
      have h5 : List.take (handlers w e).length (handlers w2 e) = handlers w e := by
        rw [c1]; exact List.take_left _ _
      generalize handlers w e = Hs at h5 hl e3
      unfold handlers at h5
      rw [List.take_take, Nat.min_eq_left (by omega)] at h5
      rw [e3]
      conv_lhs => arg 1; rw [← h5]
      exact List.take_append_drop _ _
    let w1f : World T := { w1 with env := { w1.env with
      fired := w.env.nextOneshot :: w1.env.fired } }
    have hwf1 : WF w1f e := by
      obtain ⟨p1, p2⟩ := c2
      constructor
      · show (w1.events e).handlers.len ≤ (w1.events e).handlers.cap
        rw [e1]; exact p1
      · show (w1.events e).handlers.cap ≤ (w1.array (w1.events e).handlers.arr).length
        rw [e1, hO]; exact p2
    have hh1 : handlers w1f e = handlers w e
        ++ [⟨connection.oneshot w.env.nextOneshot conn,
              Slot.seq (Slot.setFired w.env.nextOneshot) slot⟩] := by
      rw [← c1]
      show List.take (w1.events e).handlers.len (w1.array (w1.events e).handlers.arr) = _
      rw [e1, hO]
      rfl
    have hfrel : ∀ v : Env T, v.disposed = w1f.env.disposed → v.fired = w1f.env.fired →
        v.disposed = w.env.disposed ∧
        (∀ q, q < w.env.nextOneshot → (q ∈ v.fired ↔ q ∈ w.env.fired)) ∧
        w.env.nextOneshot ∈ v.fired := by
      intro v hvd hvf
      refine ⟨?_, ?_, ?_⟩
      · rw [hvd]
        show w1.env.disposed = _
        rw [e2]; exact hd3
      · intro q hq
        rw [hvf]
        show q ∈ w.env.nextOneshot :: w1.env.fired ↔ _
        rw [e2, List.mem_cons, hrel3 q hq]
        constructor
        · rintro (h | h)
          · omega
          · exact h
        · exact Or.inr
      · rw [hvf]
        exact List.mem_cons_self _ _
    obtain ⟨w3, k1, k2, _, _, _, _, k7⟩ := exec_reemits grow a e (handlers w e)
      ⟨connection.oneshot w.env.nextOneshot conn, Slot.seq (Slot.setFired w.env.nextOneshot) slot⟩
      w1f.env.disposed w1f.env.fired hinert
      (fun v hvd hvf h hm => by
        obtain ⟨r1, r2, _⟩ := hfrel v hvd hvf
        rw [dead_of_allocated w.env v r1 r2 h.c (hal h hm)]
        exact (hH h hm).1)
      (fun v hvd hvf => by
        obtain ⟨_, _, r3⟩ := hfrel v hvd hvf
        simp [dead, connection.IsDisposed, r3])
      f slot w1f hslot (by omega) (fun h hm => by have := (hH h hm).2.2.2; omega) hwf1 rfl rfl
      (Or.inr hh1)
    refine ⟨w3, ?_, ?_⟩
    · obtain ⟨g, rfl⟩ : ∃ g, f = g + 1 := ⟨f - 1, by omega⟩
      simp only [exec]
      exact k1
    · have hn := handlers_length w3 e k2
      rw [k7 hemit] at hn
      simp only [NumConnections] at hn
      rw [← hn]

/-! ## The claims -/

/-- C1: after the Connect calls of `cs`, in order, on an empty Event, with
connections that are nil or report not disposed and callbacks that only call
user functions, one Emit returns, keeps the records in Connect order, and adds
to the log exactly the calls of one invocation of each callback with `arg`, in
Connect order. -/
theorem C1_emit_invokes_connected_callbacks_in_order {T : Type} (grow : Nat → Nat)
    (fuel e : Nat) (arg : T) (w : World T) (cs : List (connection × Slot))
    (hwf : WF w e) (hempty : NumConnections e w = 0)
    (hcs : ∀ c ∈ cs, dead w.env c.1 = false ∧ c.2.inert = true ∧ c.2.depth < fuel) :
    (Emit grow fuel e arg (connectAll grow e cs w)).map (view e)
      = Except.ok (cs.map (fun c => (⟨c.1, c.2⟩ : eventHandler)), cs.length,
          { w.env with log := w.env.log ++ cs.flatMap (fun c => c.2.calls arg) }) := by
  obtain ⟨h1, h2, h3⟩ := connectAll_handlers grow e cs w hwf
  have h0 : handlers w e = [] := by
    have := handlers_length w e hwf
    rw [hempty] at this
    exact List.length_eq_zero.1 this
  rw [h0, List.nil_append] at h1
  have hin : ∀ h ∈ handlers (connectAll grow e cs w) e, h.f.inert = true ∧ h.f.depth < fuel := by
    intro h hh
    rw [h1] at hh
    obtain ⟨c, hc, rfl⟩ := List.mem_map.1 hh
    exact (hcs c hc).2
  obtain ⟨w1, g1, g2, g3, g4, g5⟩ := Emit_inert grow fuel e arg _ h2 hin
  have hall : (cs.map (fun c => (⟨c.1, c.2⟩ : eventHandler))).filter (live w.env)
      = cs.map (fun c => (⟨c.1, c.2⟩ : eventHandler)) := by
    rw [List.filter_eq_self]
    intro h hh
    obtain ⟨c, hc, rfl⟩ := List.mem_map.1 hh
    simp [live, (hcs c hc).1]
  rw [h1, h3, hall] at g2 g5
  rw [h1, h3] at g3
  have hinv : invoked arg w.env (cs.map (fun c => (⟨c.1, c.2⟩ : eventHandler)))
      = cs.flatMap (fun c => c.2.calls arg) := by
    simp only [invoked, hall, List.flatMap_map]
  rw [hinv] at g3
  rw [g1]
  simp only [Except.map, view, g2, g3, g5, List.length_map]

theorem C1_witness :
    WF (World.init Nat) 0 ∧ NumConnections 0 (World.init Nat) = 0 ∧
    (Emit doubling 1 0 7
        (connectAll doubling 0
          [(connection.nil, Slot.call 1), (connection.user 0, Slot.call 2),
            (connection.nil, Slot.call 3)] (World.init Nat))).map (view 0)
      = Except.ok ([⟨connection.nil, Slot.call 1⟩, ⟨connection.user 0, Slot.call 2⟩,
            ⟨connection.nil, Slot.call 3⟩], 3,
          { (World.init Nat).env with log := [(1, 7), (2, 7), (3, 7)] }) :=
  ⟨by decide, by decide,
    C1_emit_invokes_connected_callbacks_in_order doubling 1 0 7 (World.init Nat)
      [(connection.nil, Slot.call 1), (connection.user 0, Slot.call 2),
        (connection.nil, Slot.call 3)] (by decide) (by decide) (by decide)⟩

/-- C2: in a state whose callbacks only call user functions (so that every
connection keeps its status), with `n` records of which `d` have a non-nil
connection that reports disposed: Emit returns, invokes exactly the live
records, each once and in order, and leaves exactly the live records, so that
NumConnections is `n - d`; Flush leaves the same records and invokes
nothing; a second Emit, and an Emit after the Flush, again invoke exactly the
live records, never a removed one. -/
theorem C2_disposed_records_are_skipped_and_removed {T : Type} (grow : Nat → Nat)
    (fuel e : Nat) (arg arg2 : T) (w : World T) (hwf : WF w e)
    (hin : ∀ h ∈ handlers w e, h.f.inert = true ∧ h.f.depth < fuel) :
    (Emit grow fuel e arg w).map (view e)
      = Except.ok ((handlers w e).filter (live w.env),
          NumConnections e w - (handlers w e).countP (fun h => dead w.env h.c),
          { w.env with log := w.env.log ++ invoked arg w.env (handlers w e) }) ∧
    (Flush e w).map (view e)
      = Except.ok ((handlers w e).filter (live w.env),
          NumConnections e w - (handlers w e).countP (fun h => dead w.env h.c), w.env) ∧
    (emits grow fuel e [arg, arg2] w).map (view e)
      = Except.ok ((handlers w e).filter (live w.env),
          NumConnections e w - (handlers w e).countP (fun h => dead w.env h.c),
          { w.env with log := (w.env.log ++ invoked arg w.env (handlers w e)
            ++ invoked arg2 w.env (handlers w e)) }) ∧
    (Flush e w >>= Emit grow fuel e arg2).map (view e)
      = Except.ok ((handlers w e).filter (live w.env),
          NumConnections e w - (handlers w e).countP (fun h => dead w.env h.c),
          { w.env with log := w.env.log ++ invoked arg2 w.env (handlers w e) }) := by
  have hcount := length_filter_live w.env (handlers w e)
  rw [handlers_length w e hwf] at hcount
  obtain ⟨w1, a1, a2, a3, a4, a5⟩ := Emit_inert grow fuel e arg w hwf hin
  obtain ⟨w2, b1, b2, b3, b4, b5⟩ := Flush_sweep e w hwf
  obtain ⟨w3, c1, c2, c3, c4⟩ := emits_inert grow fuel e [arg2] arg w hwf hin
  have hin2 : ∀ h ∈ handlers w2 e, h.f.inert = true ∧ h.f.depth < fuel := by
    intro h hh
    rw [b2] at hh
    exact hin h (List.mem_filter.1 hh).1
  obtain ⟨w4, d1, d2, d3, d4, d5⟩ := Emit_inert grow fuel e arg2 w2 b4 hin2
  rw [b2, b3, List.filter_filter] at d2 d5
  rw [b2, b3, invoked_filter_live] at d3
  simp only [Bool.and_self] at d2 d5
  refine ⟨?_, ?_, ?_, ?_⟩
  · rw [a1]
    simp only [Except.map, view, a2, a3, a5, hcount]
  · rw [b1]
    simp only [Except.map, view, b2, b3, b5, hcount]
  · rw [c1]
    have hn := handlers_length w3 e c4
    rw [c2, hcount] at hn
    simp only [Except.map, view, c2, c3, ← hn]
    simp
  · rw [b1]
    show (Emit grow fuel e arg2 w2).map (view e) = _
    rw [d1]
    simp only [Except.map, view, d2, d3, d5, hcount]

theorem C2_witness :
    WF stateDisposed 0 ∧
    (∀ h ∈ handlers stateDisposed 0, h.f.inert = true ∧ h.f.depth < 1) ∧
    ((Emit doubling 1 0 7 stateDisposed).map (view 0)
      = Except.ok ([⟨connection.nil, Slot.call 1⟩], 1, ⟨[0], [], 0, [(1, 7)]⟩) ∧
    (Flush 0 stateDisposed).map (view 0)
      = Except.ok ([⟨connection.nil, Slot.call 1⟩], 1, ⟨[0], [], 0, []⟩) ∧
    (emits doubling 1 0 [7, 8] stateDisposed).map (view 0)
      = Except.ok ([⟨connection.nil, Slot.call 1⟩], 1, ⟨[0], [], 0, [(1, 7), (1, 8)]⟩) ∧
    (Flush 0 stateDisposed >>= Emit doubling 1 0 8).map (view 0)
      = Except.ok ([⟨connection.nil, Slot.call 1⟩], 1, ⟨[0], [], 0, [(1, 8)]⟩)) :=
  ⟨by decide, by decide,
    C2_disposed_records_are_skipped_and_removed doubling 1 0 7 8 stateDisposed
      (by decide) (by decide)⟩

/-- C3: after ConnectOneShot with a connection that is nil or reports not
disposed, and with callbacks (the given one and those of the other listeners)
that only call user functions, every sequence of one or more Emits returns,
and its log is: for the first Emit the calls of the other live listeners
followed by the calls of one invocation of the callback, and for each later
Emit the calls of the other live listeners only. The callback runs exactly
once, in the first Emit. -/
theorem C3_oneshot_fires_on_the_first_emit_only {T : Type} (grow : Nat → Nat)
    (fuel e : Nat) (a : T) (as : List T) (w : World T) (conn : connection) (slot : Slot)
    (hwf : WF w e)
    (hH : ∀ h ∈ handlers w e, h.c.allocated w.env = true ∧ h.f.inert = true ∧ h.f.depth < fuel)
    (hlive : dead w.env conn = false) (hca : conn.allocated w.env = true)
    (hslot : slot.inert = true) (hfuel : slot.depth + 1 < fuel) :
    (emits grow fuel e (a :: as) (ConnectOneShot grow e conn slot w)).map (fun w1 => w1.env.log)
      = Except.ok (w.env.log ++ invoked a w.env (handlers w e) ++ slot.calls a
          ++ as.flatMap (fun x => invoked x w.env (handlers w e))) := by
  obtain ⟨w1, g1, g2, g3, g4⟩ :=
    oneshot_first_emit grow fuel e a w conn slot hwf hH hlive hca hslot hfuel
  rw [emits, g1]
  cases as with
  | nil => simp [emits, Except.map, g3]
  | cons b bs =>
    have hH1 : ∀ h ∈ (handlers w e).filter (live w.env),
        h.c.allocated w.env = true ∧ h.f.inert = true ∧ h.f.depth < fuel :=
      fun h hm => hH h (List.mem_filter.1 hm).1
    have hrel : ∀ q, q < w.env.nextOneshot → (q ∈ w1.env.fired ↔ q ∈ w.env.fired) := by
      intro q hq
      rw [g3]
      simp only [List.mem_cons, List.mem_filter, bne_iff_ne, ne_eq]
      constructor
      · rintro (h | h)
        · omega
        · exact h.1
      · intro h
        exact Or.inr ⟨h, by omega⟩
    have hdead : dead w1.env (connection.oneshot w.env.nextOneshot conn) = true := by
      rw [g3]
      simp [dead, connection.IsDisposed]
    obtain ⟨w2, k1, _, k3⟩ := emits_drop_dead_last grow fuel e w.env
      ((handlers w e).filter (live w.env)) _ hH1 b bs w1 g4 g2 (by rw [g3]) hrel hdead
    simp only [k1, Except.map, k3, g3, invoked_filter_live]

theorem C3_witness :
    WF stateDisposed 0 ∧
    (∀ h ∈ handlers stateDisposed 0,
      h.c.allocated stateDisposed.env = true ∧ h.f.inert = true ∧ h.f.depth < 2) ∧
    dead stateDisposed.env (connection.user 5) = false ∧
    (emits doubling 2 0 [7, 8, 9] (ConnectOneShot doubling 0 (connection.user 5) (Slot.call 3)
        stateDisposed)).map (fun w1 => w1.env.log)
      = Except.ok [(1, 7), (3, 7), (1, 8), (1, 9)] :=
  ⟨by decide, by decide, by decide,
    C3_oneshot_fires_on_the_first_emit_only doubling 2 0 7 [8, 9] stateDisposed
      (connection.user 5) (Slot.call 3) (by decide) (by decide) (by decide) (by decide)
      (by decide) (by decide)⟩

/-- C4: when the first record whose connection is `h` is `r`, Disconnect(h)
gives that record `theRemovedConnection` and changes nothing else: the other
records, also those after `r` that share `h`, keep their connection and their
place, and NumConnections is unchanged. With callbacks that only call user
functions, the next Emit invokes and keeps exactly the live ones among the
other records; those that share `h` are among them when `h` reports not
disposed. -/
theorem C4_disconnect_marks_only_the_first_match {T : Type} (grow : Nat → Nat)
    (fuel e : Nat) (arg : T) (w : World T) (h : connection)
    (front post : List eventHandler) (r : eventHandler) (hwf : WF w e)
    (hH : handlers w e = front ++ r :: post) (hr : r.c = h) (hfront : ∀ x ∈ front, x.c ≠ h)
    (hin : ∀ x ∈ handlers w e, x.f.inert = true ∧ x.f.depth < fuel) :
    view e (Disconnect e h w)
      = (front ++ { r with c := connection.removed } :: post, NumConnections e w, w.env) ∧
    (Emit grow fuel e arg (Disconnect e h w)).map (view e)
      = Except.ok ((front ++ post).filter (live w.env),
          ((front ++ post).filter (live w.env)).length,
          { w.env with log := w.env.log ++ invoked arg w.env (front ++ post) }) ∧
    (dead w.env h = false → ∀ x ∈ post, x.c = h → x ∈ (front ++ post).filter (live w.env)) := by
  obtain ⟨h1, h2, h3, h4⟩ := Disconnect_handlers e h w hwf
  rw [hH, disconnectLoop_first h r post hr front hfront] at h1
  have hin1 : ∀ x ∈ handlers (Disconnect e h w) e, x.f.inert = true ∧ x.f.depth < fuel := by
    intro x hx
    rw [h1] at hx
    rw [hH] at hin
    rcases List.mem_append.1 hx with hx | hx
    · exact hin x (List.mem_append_left _ hx)
    · rcases List.mem_cons.1 hx with hx | hx
      · rw [hx]
        exact hin r (List.mem_append_right _ (List.mem_cons_self _ _))
      · exact hin x (List.mem_append_right _ (List.mem_cons_of_mem _ hx))
  obtain ⟨w1, g1, g2, g3, g4, g5⟩ := Emit_inert grow fuel e arg _ h2 hin1
  have hrem : live w.env { r with c := connection.removed } = false := by
    simp [live, dead, connection.IsDisposed]
  have hf : (front ++ { r with c := connection.removed } :: post).filter (live w.env)
      = (front ++ post).filter (live w.env) := by
    simp [List.filter_append, List.filter_cons, hrem]
  have hi : invoked arg w.env (front ++ { r with c := connection.removed } :: post)
      = invoked arg w.env (front ++ post) := by
    simp only [invoked, hf]
  rw [h1, h3, hf] at g2 g5
  rw [h1, h3, hi] at g3
  refine ⟨?_, ?_, ?_⟩
  · simp only [view, h1, h3, h4]
  · rw [g1]
    simp only [Except.map, view, g2, g3, g5]
  · intro hd x hx hxc
    rw [List.mem_filter]
    exact ⟨List.mem_append_right _ hx, by simp [live, hxc, hd]⟩

theorem C4_witness :
    WF stateShared 0 ∧
    handlers stateShared 0 = [⟨connection.user 1, Slot.call 1⟩]
      ++ ⟨connection.user 2, Slot.call 2⟩ :: [⟨connection.user 2, Slot.call 3⟩] ∧
    (view 0 (Disconnect 0 (connection.user 2) stateShared)
      = ([⟨connection.user 1, Slot.call 1⟩, ⟨connection.removed, Slot.call 2⟩,
          ⟨connection.user 2, Slot.call 3⟩], 3, ⟨[], [], 0, []⟩) ∧
    (Emit doubling 1 0 7 (Disconnect 0 (connection.user 2) stateShared)).map (view 0)
      = Except.ok ([⟨connection.user 1, Slot.call 1⟩, ⟨connection.user 2, Slot.call 3⟩], 2,
          ⟨[], [], 0, [(1, 7), (3, 7)]⟩) ∧
    (dead stateShared.env (connection.user 2) = false →
      ∀ x ∈ [(⟨connection.user 2, Slot.call 3⟩ : eventHandler)], x.c = connection.user 2 →
        x ∈ ([(⟨connection.user 1, Slot.call 1⟩ : eventHandler)]
          ++ [(⟨connection.user 2, Slot.call 3⟩ : eventHandler)]).filter (live stateShared.env))) :=
  ⟨by decide, by decide,
    C4_disconnect_marks_only_the_first_match doubling 1 0 7 stateShared (connection.user 2)
      [⟨connection.user 1, Slot.call 1⟩] [⟨connection.user 2, Slot.call 3⟩]
      ⟨connection.user 2, Slot.call 2⟩ (by decide) (by decide) rfl (by decide) (by decide)⟩

/-- C5: on an Event that holds one listener connected with nil,
Disconnect(nil) is not a no-op: `h.c == conn` holds for the nil connection of
the record, which gets `theRemovedConnection`, and the next Emit drops the
record without invoking its callback. -/
theorem C5_disconnect_nil_removes_a_persistent_listener :
    view 0 statePersistent = ([⟨connection.nil, Slot.call 1⟩], 1, ⟨[], [], 0, []⟩) ∧
    view 0 (Disconnect 0 connection.nil statePersistent)
      = ([⟨connection.removed, Slot.call 1⟩], 1, ⟨[], [], 0, []⟩) ∧
    (Emit doubling 1 0 7 (Disconnect 0 connection.nil statePersistent)).map (view 0)
      = Except.ok ([], 0, ⟨[], [], 0, []⟩) ∧
    (Emit doubling 1 0 7 statePersistent).map (view 0)
      = Except.ok ([⟨connection.nil, Slot.call 1⟩], 1, ⟨[], [], 0, [(1, 7)]⟩) := by
  refine ⟨?_, ?_, ?_, ?_⟩ <;> rfl

/-- C6 (amended): the test of the connection comes before the call of the
callback. With callbacks that only call user functions every record that Emit
leaves is live when Emit returns. The record of a one-shot listener is still
in the Event when the Emit that fired it returns, its connection then
reporting disposed; the next Emit drops it. -/
theorem C6_fired_oneshot_record_stays_until_the_next_emit {T : Type} (grow : Nat → Nat)
    (fuel e : Nat) (a b : T) (w : World T) (conn : connection) (slot : Slot)
    (hwf : WF w e)
    (hH : ∀ h ∈ handlers w e, h.c.allocated w.env = true ∧ h.f.inert = true ∧ h.f.depth < fuel)
    (hlive : dead w.env conn = false) (hca : conn.allocated w.env = true)
    (hslot : slot.inert = true) (hfuel : slot.depth + 1 < fuel) :
    (Emit grow fuel e a w).map (fun w1 => (handlers w1 e).all (live w1.env)) = Except.ok true ∧
    (Emit grow fuel e a (ConnectOneShot grow e conn slot w)).map
        (fun w1 => (handlers w1 e, dead w1.env (connection.oneshot w.env.nextOneshot conn)))
      = Except.ok ((handlers w e).filter (live w.env)
          ++ [⟨connection.oneshot w.env.nextOneshot conn,
                Slot.seq (Slot.setFired w.env.nextOneshot) slot⟩], true) ∧
    (emits grow fuel e [a, b] (ConnectOneShot grow e conn slot w)).map
        (fun w1 => handlers w1 e)
      = Except.ok ((handlers w e).filter (live w.env)) := by
  obtain ⟨w1, g1, g2, g3, g4⟩ :=
    oneshot_first_emit grow fuel e a w conn slot hwf hH hlive hca hslot hfuel
  have hdead : dead w1.env (connection.oneshot w.env.nextOneshot conn) = true := by
    rw [g3]
    simp [dead, connection.IsDisposed]
  refine ⟨?_, ?_, ?_⟩
  · obtain ⟨w0, k1, k2, k3, _⟩ := Emit_inert grow fuel e a w hwf (fun h hm => (hH h hm).2)
    rw [k1]
    simp only [Except.map, k2, Except.ok.injEq, List.all_eq_true, List.mem_filter]
    intro h hm
    rw [live_congr w.env w0.env (by rw [k3]) (by rw [k3])]
    exact hm.2
  · rw [g1]
    simp only [Except.map, g2, hdead]
  · have hH1 : ∀ h ∈ (handlers w e).filter (live w.env),
        h.c.allocated w.env = true ∧ h.f.inert = true ∧ h.f.depth < fuel :=
      fun h hm => hH h (List.mem_filter.1 hm).1
    have hrel : ∀ q, q < w.env.nextOneshot → (q ∈ w1.env.fired ↔ q ∈ w.env.fired) := by
      intro q hq
      rw [g3]
      simp only [List.mem_cons, List.mem_filter, bne_iff_ne, ne_eq]
      constructor
      · rintro (h | h)
        · omega
        · exact h.1
      · intro h
        exact Or.inr ⟨h, by omega⟩
    obtain ⟨w2, k1, k2, _⟩ := emits_drop_dead_last grow fuel e w.env
      ((handlers w e).filter (live w.env)) _ hH1 b [] w1 g4 g2 (by rw [g3]) hrel hdead
    rw [emits, g1]
    simp only [k1, Except.map, k2, List.filter_filter, Bool.and_self]

/-- C6 (as stated) fails: after ConnectOneShot on an empty Event and one
Emit, the record of the one-shot listener is still in the Event, and its
connection reports disposed. -/
theorem C6_counterexample :
    (Emit doubling 2 0 7
        (ConnectOneShot doubling 0 connection.nil (Slot.call 1) (World.init Nat))).map
      (fun w1 => (handlers w1 0, NumConnections 0 w1,
        (handlers w1 0).map (fun h => dead w1.env h.c)))
      = Except.ok ([⟨connection.oneshot 0 connection.nil,
            Slot.seq (Slot.setFired 0) (Slot.call 1)⟩], 1, [true]) := by
  rfl

theorem C6_witness :
    WF stateDisposed 0 ∧
    (∀ h ∈ handlers stateDisposed 0,
      h.c.allocated stateDisposed.env = true ∧ h.f.inert = true ∧ h.f.depth < 2) ∧
    dead stateDisposed.env (connection.user 5) = false ∧
    ((Emit doubling 2 0 7 stateDisposed).map (fun w1 => (handlers w1 0).all (live w1.env))
      = Except.ok true ∧
    (Emit doubling 2 0 7 (ConnectOneShot doubling 0 (connection.user 5) (Slot.call 3)
        stateDisposed)).map
        (fun w1 => (handlers w1 0, dead w1.env (connection.oneshot 0 (connection.user 5))))
      = Except.ok ([⟨connection.nil, Slot.call 1⟩,
          ⟨connection.oneshot 0 (connection.user 5),
            Slot.seq (Slot.setFired 0) (Slot.call 3)⟩], true) ∧
    (emits doubling 2 0 [7, 8] (ConnectOneShot doubling 0 (connection.user 5) (Slot.call 3)
        stateDisposed)).map (fun w1 => handlers w1 0)
      = Except.ok [⟨connection.nil, Slot.call 1⟩]) :=
  ⟨by decide, by decide, by decide,
    C6_fired_oneshot_record_stays_until_the_next_emit doubling 2 0 7 8 stateDisposed
      (connection.user 5) (Slot.call 3) (by decide) (by decide) (by decide) (by decide)
      (by decide) (by decide)⟩

/-- C7 (amended): when the callback of a live listener calls Reset on the
same Event at least once and performs no other operation on an Event (it may
call user functions before and after), and the callbacks of the records
before it only call user functions, Emit panics: Reset has set the length of
`e.handlers` to 0, so the store `e.handlers[length] = h` that follows the
callback is out of range. -/
theorem C7_emit_panics_when_a_callback_resets {T : Type} (grow : Nat → Nat)
    (fuel e : Nat) (arg : T) (w : World T) (front post : List eventHandler) (r : eventHandler)
    (hwf : WF w e) (hH : handlers w e = front ++ r :: post)
    (hfront : ∀ h ∈ front, h.f.inert = true ∧ h.f.depth < fuel)
    (hlive : dead w.env r.c = false) (hr : r.f.resets e = true)
    (hreset : r.f.hasReset = true) (hfuel : r.f.depth < fuel) :
    Emit grow fuel e arg w = Except.error Fault.indexOutOfRange := by
  apply emitWith_front_fault (exec grow arg fuel) (Slot.effect arg) e w front post r hwf hH
    (run_inert grow arg fuel front hfront)
  · rw [sweep_inert arg front w.env (fun h hh => (hfront h hh).1)]
    exact (dead_congr w.env { w.env with log := w.env.log ++ invoked arg w.env front }
      rfl rfl r.c).trans hlive
  · intro w1 _ _ _ _
    obtain ⟨w2, k1, _, k3⟩ := exec_resets grow arg e fuel r.f w1 hr hfuel
    exact ⟨w2, k1, by rw [k3 hreset]; exact Nat.zero_le _⟩

/-- C7 (as stated) fails: on an Event holding one listener, connected with
nil, whose callback calls Reset on that Event, Emit panics with an index out
of range. -/
theorem C7_counterexample :
    Emit doubling 1 0 7 (Connect doubling 0 connection.nil (Slot.reset 0) (World.init Nat))
      = Except.error Fault.indexOutOfRange := by
  rfl

theorem C7_witness :
    WF (Connect doubling 0 connection.nil (Slot.seq (Slot.call 5) (Slot.reset 0))
      statePersistent) 0 ∧
    handlers (Connect doubling 0 connection.nil (Slot.seq (Slot.call 5) (Slot.reset 0))
        statePersistent) 0
      = [⟨connection.nil, Slot.call 1⟩]
        ++ ⟨connection.nil, Slot.seq (Slot.call 5) (Slot.reset 0)⟩ :: [] ∧
    Emit doubling 2 0 7
        (Connect doubling 0 connection.nil (Slot.seq (Slot.call 5) (Slot.reset 0))
          statePersistent)
      = Except.error Fault.indexOutOfRange :=
  ⟨by decide, by decide,
    C7_emit_panics_when_a_callback_resets doubling 2 0 7
      (Connect doubling 0 connection.nil (Slot.seq (Slot.call 5) (Slot.reset 0))
        statePersistent)
      [⟨connection.nil, Slot.call 1⟩] []
      ⟨connection.nil, Slot.seq (Slot.call 5) (Slot.reset 0)⟩
      (by decide) (by decide) (by decide) (by decide) (by decide) (by decide) (by decide)⟩

/-- C8 (amended): with callbacks that perform no operation on an Event, Emit
returns and leaves a sub-sequence of the records it found, so no record that
was not connected and no record more often than it was connected. A callback
that calls Emit on the same Event is not safe: when every record is live, the
callbacks only call user functions, and a one-shot listener is connected
last whose callback calls Emit on the same Event at least once and performs
no other operation on an Event (it may call user functions before and
after), the nested Emit drops the already-fired one-shot record and the
outer Emit panics with an index out of range at the store of that record. -/
theorem C8_emit_from_a_callback_can_panic {T : Type} (grow : Nat → Nat) (fuel e : Nat)
    (a : T) (w : World T) (hwf : WF w e)
    (hs : ∀ h ∈ handlers w e, h.f.simple = true ∧ h.f.depth < fuel) :
    (∃ w1, Emit grow fuel e a w = Except.ok w1 ∧ List.Sublist (handlers w1 e) (handlers w e)) ∧
    ∀ (conn : connection) (slot : Slot),
      slot.reemits e = true → slot.hasEmit = true →
      (∀ h ∈ handlers w e, dead w.env h.c = false ∧ h.c.allocated w.env = true ∧
        h.f.inert = true ∧ h.f.depth + slot.depth + 2 < fuel) →
      dead w.env conn = false → conn.allocated w.env = true → slot.depth + 1 < fuel →
      Emit grow fuel e a (ConnectOneShot grow e conn slot w)
        = Except.error Fault.indexOutOfRange := by
  constructor
  · obtain ⟨w1, g1, g2, _⟩ := Emit_simple grow fuel e a w hwf hs
    exact ⟨w1, g1, by rw [g2]; exact sweep_sublist _ _ _⟩
  · intro conn slot hslot hemit hH hlive hca hfuel
    exact oneshot_reemits_panic grow fuel e a w conn slot hwf hslot hemit hH hlive hca hfuel

/-- C8 (as stated) fails. On an Event holding only a one-shot listener whose
callback calls Emit on that Event, Emit panics with an index out of range. On
`stateReentrant` the outer Emit returns, and leaves the listener with user
function 4 twice and the listener with user function 3 not at all. -/
theorem C8_counterexample :
    Emit doubling 3 0 7
        (ConnectOneShot doubling 0 connection.nil (Slot.emit 0) (World.init Nat))
      = Except.error Fault.indexOutOfRange ∧
    handlers stateReentrant 0
      = [⟨connection.removed, Slot.call 0⟩, ⟨connection.nil, Slot.call 1⟩,
          ⟨connection.oneshot 0 connection.nil, Slot.seq (Slot.setFired 0) (Slot.emit 0)⟩,
          ⟨connection.nil, Slot.call 3⟩, ⟨connection.nil, Slot.call 4⟩] ∧
    (Emit doubling 3 0 7 stateReentrant).map (fun w1 => handlers w1 0)
      = Except.ok [⟨connection.nil, Slot.call 1⟩,
          ⟨connection.oneshot 0 connection.nil, Slot.seq (Slot.setFired 0) (Slot.emit 0)⟩,
          ⟨connection.nil, Slot.call 4⟩, ⟨connection.nil, Slot.call 4⟩] := by
  refine ⟨?_, ?_, ?_⟩ <;> rfl

theorem C8_witness :
    WF statePersistent 0 ∧
    (∀ h ∈ handlers statePersistent 0, h.f.simple = true ∧ h.f.depth < 4) ∧
    (∃ w1, Emit doubling 4 0 7 statePersistent = Except.ok w1 ∧
      List.Sublist (handlers w1 0) (handlers statePersistent 0)) ∧
    Emit doubling 4 0 7
        (ConnectOneShot doubling 0 (connection.user 5) (Slot.seq (Slot.call 5) (Slot.emit 0))
          statePersistent)
      = Except.error Fault.indexOutOfRange :=
  ⟨by decide, by decide,
    (C8_emit_from_a_callback_can_panic doubling 4 0 7 statePersistent (by decide)
      (by decide)).1,
    (C8_emit_from_a_callback_can_panic doubling 4 0 7 statePersistent (by decide)
      (by decide)).2 (connection.user 5) (Slot.seq (Slot.call 5) (Slot.emit 0))
      (by decide) (by decide) (by decide) (by decide) (by decide) (by decide)⟩

/-- C9: after Reset, NumConnections returns 0 and IsEmpty returns true, and
an Emit returns having invoked nothing: the Event holds no record and the
state outside the Events, the log included, is what it was before the
Reset. -/
theorem C9_reset_disconnects_every_listener {T : Type} (grow : Nat → Nat) (fuel e : Nat)
    (arg : T) (w : World T) :
    NumConnections e (Reset e w) = 0 ∧ IsEmpty e (Reset e w) = true ∧
    (Emit grow fuel e arg (Reset e w)).map (view e) = Except.ok ([], 0, w.env) := by
  refine ⟨?_, ?_, ?_⟩
  · simp [NumConnections, Reset, World.setHandlers]
  · simp [IsEmpty, Reset, World.setHandlers]
  · simp [Emit, emitWith, Reset, World.setHandlers, emitLoop, Except.map, view, handlers,
      NumConnections]

/-- C10: when the connection given to ConnectOneShot is non-nil and reports
disposed, and the callbacks of the other listeners only call user functions,
the Emits that follow never invoke the callback, whatever it is: each Emit
returns and logs exactly the calls of the other live listeners, and already
the first Emit leaves the Event without the one-shot record. -/
theorem C10_oneshot_with_disposed_handle_never_fires {T : Type} (grow : Nat → Nat)
    (fuel e : Nat) (a : T) (as : List T) (w : World T) (conn : connection) (slot : Slot)
    (hwf : WF w e)
    (hH : ∀ h ∈ handlers w e, h.c.allocated w.env = true ∧ h.f.inert = true ∧ h.f.depth < fuel)
    (hconn : conn ≠ connection.nil) (hdis : conn.IsDisposed w.env = true)
    (hca : conn.allocated w.env = true) :
    (Emit grow fuel e a (ConnectOneShot grow e conn slot w)).map (fun w1 => handlers w1 e)
      = Except.ok ((handlers w e).filter (live w.env)) ∧
    (emits grow fuel e (a :: as) (ConnectOneShot grow e conn slot w)).map
        (fun w1 => (handlers w1 e, w1.env.log))
      = Except.ok ((handlers w e).filter (live w.env),
          w.env.log ++ (a :: as).flatMap (fun x => invoked x w.env (handlers w e))) := by
  obtain ⟨c1, c2, c3⟩ := ConnectOneShot_handlers grow e conn slot w hwf
  have hd2 : (ConnectOneShot grow e conn slot w).env.disposed = w.env.disposed := by rw [c3]
  have hrel : ∀ q, q < w.env.nextOneshot →
      (q ∈ (ConnectOneShot grow e conn slot w).env.fired ↔ q ∈ w.env.fired) := by
    intro q hq
    rw [c3]
    simp only [List.mem_filter, bne_iff_ne, ne_eq, and_iff_left_iff_imp]
    intro _; omega
  have hlog : (ConnectOneShot grow e conn slot w).env.log = w.env.log := by rw [c3]
  have hdead : dead (ConnectOneShot grow e conn slot w).env
      (connection.oneshot w.env.nextOneshot conn) = true := by
    have h1 := IsDisposed_of_allocated w.env _ hd2 hrel conn hca
    rw [hdis] at h1
    simp [dead, connection.IsDisposed, h1, hconn]
  have key : ∀ bs : List T, ∃ w1, emits grow fuel e (a :: bs)
      (ConnectOneShot grow e conn slot w) = Except.ok w1 ∧
      handlers w1 e = (handlers w e).filter (live w.env) ∧
      w1.env.log = (ConnectOneShot grow e conn slot w).env.log
        ++ (a :: bs).flatMap (fun x => invoked x w.env (handlers w e)) := fun bs =>
    emits_drop_dead_last grow fuel e w.env (handlers w e) _ hH a bs _ c2 c1 hd2 hrel hdead
  constructor
  · obtain ⟨w1, g1, g2, _⟩ := key []
    simp only [emits] at g1
    cases hE : Emit grow fuel e a (ConnectOneShot grow e conn slot w) with
    | error x => rw [hE] at g1; simp at g1
    | ok w2 =>
      rw [hE] at g1
      simp only [Except.ok.injEq] at g1
      simp only [Except.map, g1, g2]
  · obtain ⟨w1, g1, g2, g3⟩ := key as
    rw [g1]
    simp only [Except.map, g2, g3, hlog]

theorem C10_witness :
    WF stateDisposed 0 ∧
    (∀ h ∈ handlers stateDisposed 0,
      h.c.allocated stateDisposed.env = true ∧ h.f.inert = true ∧ h.f.depth < 1) ∧
    connection.user 0 ≠ connection.nil ∧
    (connection.user 0).IsDisposed stateDisposed.env = true ∧
    ((Emit doubling 1 0 7 (ConnectOneShot doubling 0 (connection.user 0) (Slot.call 9)
        stateDisposed)).map (fun w1 => handlers w1 0)
      = Except.ok [⟨connection.nil, Slot.call 1⟩] ∧
    (emits doubling 1 0 [7, 8] (ConnectOneShot doubling 0 (connection.user 0) (Slot.call 9)
        stateDisposed)).map (fun w1 => (handlers w1 0, w1.env.log))
      = Except.ok ([⟨connection.nil, Slot.call 1⟩], [(1, 7), (1, 8)])) :=
  ⟨by decide, by decide, by decide, by decide,
    C10_oneshot_with_disposed_handle_never_fires doubling 1 0 7 [8] stateDisposed
      (connection.user 0) (Slot.call 9) (by decide) (by decide) (by decide) (by decide)
      (by decide)⟩

/-- C11: Forward is Connect with the callback that calls Emit on `e2` with
the argument it received. For two distinct Events that share no backing
array (or with `e2` holding no record), a handle that is nil or reports not
disposed, and callbacks of both Events that only call user functions: after
Forward, Emit on `e` returns; it keeps the live records of `e` and the
forwarding record; and after the calls of the live listeners of `e` it does
to `e2` and to the log what one Emit on `e2` with the same argument does:
every live listener of `e2` is invoked once with that argument, and `e2` is
left with its live records. -/
theorem C11_forward_emits_the_target_once {T : Type} (grow : Nat → Nat) (fuel e e2 : Nat)
    (a : T) (w : World T) (conn : connection) (hne : e ≠ e2) (hwf : WF w e) (hwf2 : WF w e2)
    (hsep : (w.events e).handlers.arr ≠ (w.events e2).handlers.arr ∨ NumConnections e2 w = 0)
    (hH : ∀ h ∈ handlers w e, h.f.inert = true ∧ h.f.depth < fuel)
    (hH2 : ∀ h ∈ handlers w e2, h.f.inert = true ∧ h.f.depth + 1 < fuel)
    (hlive : dead w.env conn = false) (hfuel : 0 < fuel) :
    Forward grow e conn e2 w = Connect grow e conn (Slot.emit e2) w ∧
    (Emit grow fuel e a (Forward grow e conn e2 w)).map
        (fun w1 => (handlers w1 e, handlers w1 e2, w1.env))
      = Except.ok ((handlers w e).filter (live w.env) ++ [⟨conn, Slot.emit e2⟩],
          (handlers w e2).filter (live w.env),
          { w.env with log :=
            w.env.log ++ invoked a w.env (handlers w e) ++ invoked a w.env (handlers w e2) }) ∧
    (Emit grow fuel e2 a w).map (fun w1 => (handlers w1 e2, w1.env))
      = Except.ok ((handlers w e2).filter (live w.env),
          { w.env with log := w.env.log ++ invoked a w.env (handlers w e2) }) := by
  obtain ⟨w1, g1, g2, g3, g4⟩ :=
    forward_emit grow fuel e e2 a w conn hne hwf hwf2 hsep hH hH2 hlive hfuel
  obtain ⟨w2, k1, k2, k3, _⟩ := Emit_inert grow fuel e2 a w hwf2
    (fun h hh => ⟨(hH2 h hh).1, by have := (hH2 h hh).2; omega⟩)
  refine ⟨rfl, ?_, ?_⟩
  · show (Emit grow fuel e a (Connect grow e conn (Slot.emit e2) w)).map _ = _
    rw [g1]
    simp only [Except.map, g2, g3, g4]
  · rw [k1]
    simp only [Except.map, k2, k3]

theorem C11_witness :
    (0 : Nat) ≠ 1 ∧ WF stateTwoEvents 0 ∧ WF stateTwoEvents 1 ∧
    ((stateTwoEvents.events 0).handlers.arr ≠ (stateTwoEvents.events 1).handlers.arr ∨
      NumConnections 1 stateTwoEvents = 0) ∧
    (Forward doubling 0 (connection.user 4) 1 stateTwoEvents
      = Connect doubling 0 (connection.user 4) (Slot.emit 1) stateTwoEvents ∧
    (Emit doubling 2 0 7 (Forward doubling 0 (connection.user 4) 1 stateTwoEvents)).map
        (fun w1 => (handlers w1 0, handlers w1 1, w1.env))
      = Except.ok ([⟨connection.nil, Slot.call 1⟩, ⟨connection.user 4, Slot.emit 1⟩],
          [⟨connection.nil, Slot.call 2⟩, ⟨connection.nil, Slot.call 3⟩],
          ⟨[], [], 0, [(1, 7), (2, 7), (3, 7)]⟩) ∧
    (Emit doubling 2 1 7 stateTwoEvents).map (fun w1 => (handlers w1 1, w1.env))
      = Except.ok ([⟨connection.nil, Slot.call 2⟩, ⟨connection.nil, Slot.call 3⟩],
          ⟨[], [], 0, [(2, 7), (3, 7)]⟩)) :=
  ⟨by decide, by decide, by decide, by decide,
    C11_forward_emits_the_target_once doubling 2 0 1 7 stateTwoEvents (connection.user 4)
      (by decide) (by decide) (by decide) (by decide) (by decide) (by decide) (by decide)
      (by decide)⟩

/-- C12: Flush returns, leaves the state outside the Events as it was (no
callback runs, the log is unchanged), and leaves exactly the records whose
handle is nil or reports not disposed, in their previous order. Every store
of its loop writes at an index that is at most the index being read, and
there is one store for each record kept. -/
theorem C12_flush_is_an_in_place_filter {T : Type} (e : Nat) (w : World T) (hwf : WF w e) :
    (Flush e w).map (view e)
      = Except.ok ((handlers w e).filter (live w.env),
          ((handlers w e).filter (live w.env)).length, w.env) ∧
    (∀ p ∈ flushWrites e (w.events e).handlers.arr (w.events e).handlers.len 0 0 w,
      p.2 ≤ p.1) ∧
    (flushWrites e (w.events e).handlers.arr (w.events e).handlers.len 0 0 w).length
      = ((handlers w e).filter (live w.env)).length := by
  obtain ⟨w1, b1, b2, b3, _, b5⟩ := Flush_sweep e w hwf
  refine ⟨?_, ?_, ?_⟩
  · rw [b1]
    simp only [Except.map, view, b2, b3, b5]
  · intro p hp
    exact (flushWrites_le e _ _ 0 0 w (Nat.le_refl 0) p hp).1
  · have hF := b1
    simp only [Flush] at hF
    cases hL : flushLoop e (w.events e).handlers.arr (w.events e).handlers.len 0 0 w with
    | error x => rw [hL] at hF; simp at hF
    | ok r =>
      rw [hL] at hF
      have hr := flushLoop_writes e _ _ 0 0 w r hL
      simp only [Nat.zero_add] at hr
      simp only at hF
      split at hF
      · simp only [Except.ok.injEq] at hF
        rw [← hr, ← b5, ← hF]
        simp [NumConnections, World.setHandlers]
      · simp at hF

theorem C12_witness :
    WF stateDisposed 0 ∧
    ((Flush 0 stateDisposed).map (view 0)
      = Except.ok ([⟨connection.nil, Slot.call 1⟩], 1, ⟨[0], [], 0, []⟩) ∧
    (∀ p ∈ flushWrites 0 (stateDisposed.events 0).handlers.arr
        (stateDisposed.events 0).handlers.len 0 0 stateDisposed, p.2 ≤ p.1) ∧
    (flushWrites 0 (stateDisposed.events 0).handlers.arr
        (stateDisposed.events 0).handlers.len 0 0 stateDisposed).length = 1) :=
  ⟨by decide, C12_flush_is_an_in_place_filter 0 stateDisposed (by decide)⟩

/-- C13: when no record of the Event carries the handle, Disconnect returns
the state it was given: the same records with the same handles in the same
order, and everything else as it was. Disconnect has no error result. -/
theorem C13_disconnect_of_an_absent_handle_changes_nothing {T : Type} (e : Nat)
    (conn : connection) (w : World T) (habs : ∀ x ∈ handlers w e, x.c ≠ conn) :
    Disconnect e conn w = w ∧ handlers (Disconnect e conn w) e = handlers w e := by
  have h := Disconnect_absent e conn w habs
  exact ⟨h, by rw [h]⟩

theorem C13_witness :
    (∀ x ∈ handlers stateShared 0, x.c ≠ connection.user 7) ∧
    Disconnect 0 (connection.user 7) stateShared = stateShared ∧
    handlers (Disconnect 0 (connection.user 7) stateShared) 0 = handlers stateShared 0 :=
  ⟨by decide,
    C13_disconnect_of_an_absent_handle_changes_nothing 0 (connection.user 7) stateShared
      (by decide)⟩

/-- C14: Connect places the new record after the existing ones, which keep
their order. After Disconnect the live records are a sub-sequence of the
live records before it; Flush leaves the live records in their order; Reset
leaves none; and Emit, with callbacks that perform no operation on an Event,
returns and leaves a sub-sequence of the records it found. -/
theorem C14_operations_keep_the_order_of_the_records {T : Type} (grow : Nat → Nat)
    (fuel e : Nat) (arg : T) (w : World T) (conn : connection) (slot : Slot) (hwf : WF w e)
    (hs : ∀ h ∈ handlers w e, h.f.simple = true ∧ h.f.depth < fuel) :
    handlers (Connect grow e conn slot w) e = handlers w e ++ [⟨conn, slot⟩] ∧
    List.Sublist ((handlers (Disconnect e conn w) e).filter (live (Disconnect e conn w).env))
      ((handlers w e).filter (live w.env)) ∧
    (Flush e w).map (fun w1 => (handlers w1 e, w1.env))
      = Except.ok ((handlers w e).filter (live w.env), w.env) ∧
    handlers (Reset e w) e = [] ∧
    (∃ w1, Emit grow fuel e arg w = Except.ok w1 ∧
      List.Sublist (handlers w1 e) (handlers w e) ∧
      List.Sublist ((handlers w1 e).filter (live w1.env)) (handlers w e)) := by
  obtain ⟨d1, _, d3, _⟩ := Disconnect_handlers e conn w hwf
  obtain ⟨w2, b1, b2, b3, _, _⟩ := Flush_sweep e w hwf
  obtain ⟨w1, g1, g2, _⟩ := Emit_simple grow fuel e arg w hwf hs
  refine ⟨(Connect_handlers grow e conn slot w hwf).1, ?_, ?_, ?_, ?_⟩
  · rw [d1, d3]
    exact disconnectLoop_live_sublist w.env conn _
  · rw [b1]
    simp only [Except.map, b2, b3]
  · simp [handlers, Reset, World.setHandlers]
  · have hsub : List.Sublist (handlers w1 e) (handlers w e) := by
      rw [g2]; exact sweep_sublist _ _ _
    exact ⟨w1, g1, hsub, (List.filter_sublist _).trans hsub⟩

theorem C14_witness :
    WF stateDisposed 0 ∧
    (∀ h ∈ handlers stateDisposed 0, h.f.simple = true ∧ h.f.depth < 1) ∧
    (handlers (Connect doubling 0 (connection.user 3) (Slot.call 3) stateDisposed) 0
      = handlers stateDisposed 0 ++ [⟨connection.user 3, Slot.call 3⟩] ∧
    List.Sublist
      ((handlers (Disconnect 0 (connection.user 3) stateDisposed) 0).filter
        (live (Disconnect 0 (connection.user 3) stateDisposed).env))
      ((handlers stateDisposed 0).filter (live stateDisposed.env)) ∧
    (Flush 0 stateDisposed).map (fun w1 => (handlers w1 0, w1.env))
      = Except.ok ((handlers stateDisposed 0).filter (live stateDisposed.env),
          stateDisposed.env) ∧
    handlers (Reset 0 stateDisposed) 0 = [] ∧
    (∃ w1, Emit doubling 1 0 7 stateDisposed = Except.ok w1 ∧
      List.Sublist (handlers w1 0) (handlers stateDisposed 0) ∧
      List.Sublist ((handlers w1 0).filter (live w1.env)) (handlers stateDisposed 0))) :=
  ⟨by decide, by decide,
    C14_operations_keep_the_order_of_the_records doubling 1 0 7 stateDisposed
      (connection.user 3) (Slot.call 3) (by decide) (by decide)⟩

/-- C15: after Connect with a handle and Disconnect with the same handle,
NumConnections returns 1, while no record of the Event is alive: the only
record carries `theRemovedConnection`. -/
theorem C15_numconnections_counts_a_disconnected_record :
    handlers stateDisconnected 0 = [⟨connection.removed, Slot.call 1⟩] ∧
    NumConnections 0 stateDisconnected = 1 ∧
    (handlers stateDisconnected 0).countP (live stateDisconnected.env) = 0 := by
  refine ⟨?_, ?_, ?_⟩ <;> rfl

/-- C16: IsEmpty returns true exactly when NumConnections returns 0, and an
Event at its zero value is empty. -/
theorem C16_isempty_iff_numconnections_zero {T : Type} (e : Nat) (w : World T) :
    (IsEmpty e w = true ↔ NumConnections e w = 0) ∧
    IsEmpty e (World.init T) = true ∧ NumConnections e (World.init T) = 0 := by
  refine ⟨?_, rfl, rfl⟩
  simp [IsEmpty, NumConnections]

/-- C17: when the first record whose handle is `h` is `r`, Disconnect(h)
replaces the handle of `r` by `theRemovedConnection`, which reports disposed
in every state, and changes nothing else: the number of records, their order,
their callbacks, the handles of the other records, the slice headers of all
Events, the other backing arrays and the state outside the Events. -/
theorem C17_disconnect_changes_one_handle_only {T : Type} (e : Nat) (w : World T)
    (h : connection) (front post : List eventHandler) (r : eventHandler) (hwf : WF w e)
    (hH : handlers w e = front ++ r :: post) (hr : r.c = h) (hfront : ∀ x ∈ front, x.c ≠ h) :
    handlers (Disconnect e h w) e = front ++ ⟨connection.removed, r.f⟩ :: post ∧
    NumConnections e (Disconnect e h w) = NumConnections e w ∧
    (handlers (Disconnect e h w) e).map (fun x => x.f) = (handlers w e).map (fun x => x.f) ∧
    (Disconnect e h w).events = w.events ∧ (Disconnect e h w).env = w.env ∧
    (∀ b, b ≠ (w.events e).handlers.arr → (Disconnect e h w).array b = w.array b) ∧
    (∀ v : Env T, dead v connection.removed = true) := by
  obtain ⟨h1, _, h3, h4⟩ := Disconnect_handlers e h w hwf
  rw [hH, disconnectLoop_first h r post hr front hfront] at h1
  refine ⟨h1, h4, ?_, rfl, h3, ?_, ?_⟩
  · rw [h1, hH]
    simp
  · intro b hb
    simp only [Disconnect, World.array, List.getD_eq_getElem?_getD]
    rw [List.getElem?_set_ne (Ne.symm hb)]
  · intro v
    rfl

theorem C17_witness :
    WF stateShared 0 ∧
    handlers stateShared 0 = [⟨connection.user 1, Slot.call 1⟩]
      ++ ⟨connection.user 2, Slot.call 2⟩ :: [⟨connection.user 2, Slot.call 3⟩] ∧
    (handlers (Disconnect 0 (connection.user 2) stateShared) 0
      = [⟨connection.user 1, Slot.call 1⟩]
        ++ ⟨connection.removed, Slot.call 2⟩ :: [⟨connection.user 2, Slot.call 3⟩] ∧
    NumConnections 0 (Disconnect 0 (connection.user 2) stateShared)
      = NumConnections 0 stateShared ∧
    (handlers (Disconnect 0 (connection.user 2) stateShared) 0).map (fun x => x.f)
      = (handlers stateShared 0).map (fun x => x.f) ∧
    (Disconnect 0 (connection.user 2) stateShared).events = stateShared.events ∧
    (Disconnect 0 (connection.user 2) stateShared).env = stateShared.env ∧
    (∀ b, b ≠ (stateShared.events 0).handlers.arr →
      (Disconnect 0 (connection.user 2) stateShared).array b = stateShared.array b) ∧
    (∀ v : Env Nat, dead v connection.removed = true)) :=
  ⟨by decide, by decide,
    C17_disconnect_changes_one_handle_only 0 stateShared (connection.user 2)
      [⟨connection.user 1, Slot.call 1⟩] [⟨connection.user 2, Slot.call 3⟩]
      ⟨connection.user 2, Slot.call 2⟩ (by decide) (by decide) rfl (by decide)⟩

/-- C18: with callbacks that only call user functions, Emit and Flush, from
the same state, both return and leave the same records and the same
NumConnections; the state outside the Events that Emit leaves is the one
Flush leaves with the calls of the kept records added to the log. -/
theorem C18_emit_leaves_the_records_that_flush_leaves {T : Type} (grow : Nat → Nat)
    (fuel e : Nat) (arg : T) (w : World T) (hwf : WF w e)
    (hin : ∀ h ∈ handlers w e, h.f.inert = true ∧ h.f.depth < fuel) :
    (Flush e w).map (fun w1 => (handlers w1 e, NumConnections e w1))
      = Except.ok ((handlers w e).filter (live w.env),
          ((handlers w e).filter (live w.env)).length) ∧
    (Emit grow fuel e arg w).map (fun w1 => (handlers w1 e, NumConnections e w1))
      = (Flush e w).map (fun w1 => (handlers w1 e, NumConnections e w1)) ∧
    (Emit grow fuel e arg w).map (fun w1 => w1.env)
      = (Flush e w).map (fun w1 => { w1.env with
          log := w1.env.log ++ invoked arg w.env (handlers w e) }) := by
  obtain ⟨w1, a1, a2, a3, _, a5⟩ := Emit_inert grow fuel e arg w hwf hin
  obtain ⟨w2, b1, b2, b3, _, b5⟩ := Flush_sweep e w hwf
  rw [a1, b1]
  simp only [Except.map, a2, a3, a5, b2, b3, b5, and_self]

theorem C18_witness :
    WF stateDisposed 0 ∧
    (∀ h ∈ handlers stateDisposed 0, h.f.inert = true ∧ h.f.depth < 1) ∧
    ((Flush 0 stateDisposed).map (fun w1 => (handlers w1 0, NumConnections 0 w1))
      = Except.ok ([⟨connection.nil, Slot.call 1⟩], 1) ∧
    (Emit doubling 1 0 7 stateDisposed).map (fun w1 => (handlers w1 0, NumConnections 0 w1))
      = (Flush 0 stateDisposed).map (fun w1 => (handlers w1 0, NumConnections 0 w1)) ∧
    (Emit doubling 1 0 7 stateDisposed).map (fun w1 => w1.env)
      = (Flush 0 stateDisposed).map (fun w1 => { w1.env with
          log := w1.env.log ++ [(1, 7)] })) :=
  ⟨by decide, by decide,
    C18_emit_leaves_the_records_that_flush_leaves doubling 1 0 7 stateDisposed
      (by decide) (by decide)⟩

/-- C19: when the callbacks of an Event call user functions and call Connect
on that same Event, with any callback for the new listener, every sequence of
one or more Emits returns; the records left are exactly the records that were
there before and are live, so no listener connected during an Emit is in the
Event when that Emit returns; and the log holds, for each Emit, exactly the
calls of those records, so no listener connected during an Emit is invoked
by that Emit or by a later one. -/
theorem C19_listener_connected_during_emit_is_discarded {T : Type} (grow : Nat → Nat)
    (fuel e : Nat) (a : T) (as : List T) (w : World T) (hwf : WF w e)
    (hH : ∀ h ∈ handlers w e, h.f.appends e = true ∧ h.f.depth < fuel) :
    (emits grow fuel e (a :: as) w).map
        (fun w1 => (handlers w1 e, NumConnections e w1, w1.env.log))
      = Except.ok ((handlers w e).filter (live w.env),
          ((handlers w e).filter (live w.env)).length,
          w.env.log ++ (a :: as).flatMap (fun x => invoked x w.env (handlers w e))) := by
  obtain ⟨w1, g1, g2, g3, g4⟩ := emits_appends grow fuel e as a w hwf hH
  have hn := handlers_length w1 e g4
  rw [g2] at hn
  rw [g1]
  simp only [Except.map, g2, g3, ← hn]

theorem C19_witness :
    WF stateConnecting 0 ∧
    (∀ h ∈ handlers stateConnecting 0, h.f.appends 0 = true ∧ h.f.depth < 2) ∧
    (emits doubling 2 0 [7, 8] stateConnecting).map
        (fun w1 => (handlers w1 0, NumConnections 0 w1, w1.env.log))
      = Except.ok ([⟨connection.nil,
            Slot.seq (Slot.call 1) (Slot.connect 0 connection.nil (Slot.call 9))⟩,
          ⟨connection.nil, Slot.call 2⟩], 2, [(1, 7), (2, 7), (1, 8), (2, 8)]) :=
  ⟨by decide, by decide,
    C19_listener_connected_during_emit_is_discarded doubling 2 0 7 [8] stateConnecting
      (by decide) (by decide)⟩

/-- C20: Flush returns; a second Flush right after it returns too and leaves
the records, NumConnections and the state outside the Events as the first
left them; and NumConnections after a Flush is at most what it was before. -/
theorem C20_flush_is_idempotent_and_never_grows {T : Type} (e : Nat) (w : World T)
    (hwf : WF w e) :
    ∃ w1, Flush e w = Except.ok w1 ∧
      (Flush e w1).map (view e) = Except.ok (view e w1) ∧
      NumConnections e w1 ≤ NumConnections e w := by
  obtain ⟨w1, b1, b2, b3, b4, b5⟩ := Flush_sweep e w hwf
  obtain ⟨w2, c1, c2, c3, _, c5⟩ := Flush_sweep e w1 b4
  refine ⟨w1, b1, ?_, ?_⟩
  · rw [c1]
    have hf : (handlers w1 e).filter (live w1.env) = handlers w1 e := by
      rw [b2, b3, List.filter_filter]
      simp
    rw [hf] at c2 c5
    have hn := handlers_length w1 e b4
    simp only [Except.map, view, c2, c3, c5, hn]
  · rw [b5, ← handlers_length w e hwf]
    exact List.length_filter_le _ _

theorem C20_witness :
    WF stateDisposed 0 ∧
    ∃ w1, Flush 0 stateDisposed = Except.ok w1 ∧
      (Flush 0 w1).map (view 0) = Except.ok (view 0 w1) ∧
      NumConnections 0 w1 ≤ NumConnections 0 stateDisposed :=
  ⟨by decide, C20_flush_is_idempotent_and_never_grows 0 stateDisposed (by decide)⟩

end gsignal
